import Mathlib

/-!
Verification of the OCR batch-extraction/merge pipeline and the hybrid
retrieval engine.  Definitions are shallow embeddings of the Python sources
`src/backend/ocr_agent.py`, `src/backend/api.py`, `src/backend/database.py`
(and the legacy `src/ocr_agent.py`).  External collaborators (the generative
model, the embedding service, the SQL vector index, wall-clock time) are
modelled as explicit oracle parameters; everything the repository itself
computes is embedded as executable Lean functions.
-/

/-! ## Page values

A page number coming back from the extraction model is arbitrary JSON: an
integer, a value type-convertible to an integer by Python `int()` (such as a
numeric string or a float), or something unparsable.  `ocr_agent.py`'s
`fix_page` first attempts `int(page_value)` and substitutes the batch start
page when conversion fails. -/

inductive PageVal where
  | intv (n : Int)
  | parseable (n : Int)
  | unparsable
  deriving DecidableEq, Repr

/-- The result of Python `int(page_value)`: `none` when `int()` raises. -/
def PageVal.toIntValue : PageVal → Option Int
  | .intv n => some n
  | .parseable n => some n
  | .unparsable => none

/-- `fix_page` from `_force_fix_page_numbers` (src/backend/ocr_agent.py:162-180):
convert to int (start page on failure); remap batch-relative values
`1 ≤ p ≤ batch_size` to `p + start_page - 1`; keep values already inside
`[start_page, end_page]`; anything else becomes `start_page`. -/
def fix_page (start_page end_page : Int) (v : PageVal) : Int :=
  let batch_size := end_page - start_page + 1
  match v.toIntValue with
  | none => start_page
  | some p =>
    if 1 ≤ p ∧ p ≤ batch_size then p + start_page - 1
    else if start_page ≤ p ∧ p ≤ end_page then p
    else start_page

/-! ## Extraction records (parsed model output) -/

structure EBlock where
  id : String
  btype : String
  page : Option PageVal
  region : String
  content : String
  deriving DecidableEq, Repr

structure EKV where
  key : String
  value : String
  page : Option PageVal
  deriving DecidableEq, Repr

structure ETable where
  id : String
  page : Option PageVal
  summary : String
  data : String
  deriving DecidableEq, Repr

structure EImage where
  id : String
  itype : String
  page : Option PageVal
  description : String
  deriving DecidableEq, Repr

/-- One parsed extraction result (the dict returned by `_parse_response`).
`detected_type`, `language` and `summary` model `dict.get`: `none` when the
key is absent. -/
structure ExtractionResult where
  detected_type : Option String
  language : Option String
  blocks : List EBlock
  key_value_pairs : List EKV
  tables : List ETable
  images : List EImage
  summary : Option String
  deriving DecidableEq, Repr

/-- Python truthiness of `result.get(k)` for a string-valued key:
falsy iff absent or the empty string. -/
def strTruthy : Option String → Bool
  | none => false
  | some s => !(s == "")

/-- `_force_fix_page_numbers` (src/backend/ocr_agent.py:152-200): apply
`fix_page` to the `page` field of every block, key-value pair, table and
image (records without a `page` key are left untouched). -/
def force_fix_page_numbers (start_page end_page : Int) (r : ExtractionResult) :
    ExtractionResult :=
  { r with
    blocks := r.blocks.map (fun b =>
      { b with page := b.page.map (fun v => .intv (fix_page start_page end_page v)) }),
    key_value_pairs := r.key_value_pairs.map (fun kv =>
      { kv with page := kv.page.map (fun v => .intv (fix_page start_page end_page v)) }),
    tables := r.tables.map (fun t =>
      { t with page := t.page.map (fun v => .intv (fix_page start_page end_page v)) }),
    images := r.images.map (fun i =>
      { i with page := i.page.map (fun v => .intv (fix_page start_page end_page v)) }) }

/-! ## Page segmentation -/

/-- `_get_batch_size` of the live backend agent (src/backend/ocr_agent.py:120-125). -/
def get_batch_size (total_pages : Nat) : Nat :=
  if total_pages ≤ 3 then total_pages else 3

/-- `_get_batch_size` of the legacy top-level agent (src/ocr_agent.py:89-98). -/
def legacy_get_batch_size (total_pages : Nat) : Nat :=
  if total_pages ≤ 10 then total_pages
  else if total_pages ≤ 30 then 5
  else if total_pages ≤ 100 then 8
  else 10

/-- Python `range(lo, hi, step)` for a positive `step`: the values
`lo + k * step` below `hi` (in closed form so that the kernel can evaluate
it; `rangeStep_cons_iff` below recovers the loop view). -/
def rangeStep (lo hi step : Nat) : List Nat :=
  if step = 0 then []
  else (List.range ((hi - lo + step - 1) / step)).map (fun k => lo + k * step)

structure BatchTask where
  batch_num : Nat
  start_page : Nat
  end_page : Nat
  deriving DecidableEq, Repr

/-- The batch-task list built by `_process` (src/backend/ocr_agent.py:415-425):
`for start in range(1, total_pages + 1, batch_size): end = min(start +
batch_size - 1, total_pages)`, numbering batches from 1. -/
def makeBatchTasks (total_pages batch_size : Nat) : List BatchTask :=
  ((rangeStep 1 (total_pages + 1) batch_size).enumFrom 1).map
    (fun p => ⟨p.1, p.2, min (p.2 + batch_size - 1) total_pages⟩)

/-- `_get_pdf_page_count` (src/backend/ocr_agent.py:141-150): the page count
reported by the PDF library, or 1 when opening the bytes raises. -/
def get_pdf_page_count (openResult : Option Nat) : Nat :=
  match openResult with
  | some n => n
  | none => 1

/-! ## Result merging (`_merge_results`, src/backend/ocr_agent.py:283-340) -/

/-- Python `f"{n:03d}"`: decimal digits left-padded with zeros to width 3. -/
def pad3 (n : Nat) : String :=
  let s := toString n
  if s.length < 3 then String.mk (List.replicate (3 - s.length) '0') ++ s else s

/-- The per-result block loop: renumber ids `block_{counter:03d}` with a
globally increasing counter, returning the renumbered list and the counter
after the loop. -/
def mergeBlocksLoop (idtag : String) (c : Nat) : List EBlock → List EBlock × Nat
  | [] => ([], c)
  | b :: bs =>
    let rest := mergeBlocksLoop idtag (c + 1) bs
    ({ b with id := idtag ++ pad3 c } :: rest.1, rest.2)

def mergeTablesLoop (c : Nat) : List ETable → List ETable × Nat
  | [] => ([], c)
  | t :: ts =>
    let rest := mergeTablesLoop (c + 1) ts
    ({ t with id := "table_" ++ pad3 c } :: rest.1, rest.2)

def mergeImagesLoop (c : Nat) : List EImage → List EImage × Nat
  | [] => ([], c)
  | i :: is =>
    let rest := mergeImagesLoop (c + 1) is
    ({ i with id := "img_" ++ pad3 c } :: rest.1, rest.2)

structure ImagesSummary where
  total_count : Nat
  items : List EImage
  deriving DecidableEq, Repr

structure MergedResult where
  detected_type : String
  language : String
  total_pages : Nat
  blocks : List EBlock
  key_value_pairs : List EKV
  tables : List ETable
  images_summary : ImagesSummary
  text_summary : String
  deriving DecidableEq, Repr

structure MergeState where
  detected_type : String
  language : String
  blocks : List EBlock
  key_value_pairs : List EKV
  tables : List ETable
  items : List EImage
  total_count : Nat
  summaries : List String
  block_counter : Nat
  table_counter : Nat
  image_counter : Nat
  deriving DecidableEq, Repr

def initMergeState : MergeState :=
  ⟨"", "", [], [], [], [], 0, [], 1, 1, 1⟩

/-- One iteration of the `for result in results` loop of `_merge_results`. -/
def mergeStep (st : MergeState) (r : ExtractionResult) : MergeState :=
  let dt := if st.detected_type == "" && strTruthy r.detected_type then
    r.detected_type.getD "" else st.detected_type
  let lang := if st.language == "" && strTruthy r.language then
    r.language.getD "" else st.language
  let nb := mergeBlocksLoop "block_" st.block_counter r.blocks
  let nt := mergeTablesLoop st.table_counter r.tables
  let ni := mergeImagesLoop st.image_counter r.images
  { detected_type := dt
    language := lang
    blocks := st.blocks ++ nb.1
    key_value_pairs := st.key_value_pairs ++ r.key_value_pairs
    tables := st.tables ++ nt.1
    items := if r.images.isEmpty then st.items else st.items ++ ni.1
    total_count := if r.images.isEmpty then st.total_count
      else st.total_count + r.images.length
    summaries := if strTruthy r.summary then st.summaries ++ [r.summary.getD ""]
      else st.summaries
    block_counter := nb.2
    table_counter := nt.2
    image_counter := if r.images.isEmpty then st.image_counter else ni.2 }

def mergeLoop (st : MergeState) : List ExtractionResult → MergeState
  | [] => st
  | r :: rs => mergeLoop (mergeStep st r) rs

/-- `_merge_results`: merge the per-batch results in list order, renumbering
ids globally, concatenating key-value pairs, keeping the first non-empty
detected type and language and joining at most 10 summaries with `" | "`. -/
def merge_results (results : List ExtractionResult) (total_pages : Nat) :
    MergedResult :=
  let st := mergeLoop initMergeState results
  { detected_type := st.detected_type
    language := st.language
    total_pages := total_pages
    blocks := st.blocks
    key_value_pairs := st.key_value_pairs
    tables := st.tables
    images_summary := ⟨st.total_count, st.items⟩
    text_summary := String.intercalate " | " (st.summaries.take 10) }

/-! ## Batch orchestration (`_process_batch_with_retry` and `_process`) -/

/-- The result of one successful batch, as stored in `batch_results`. -/
structure BatchSuccess where
  batch_num : Nat
  start_page : Nat
  end_page : Nat
  result : ExtractionResult
  deriving DecidableEq, Repr

inductive BatchOutcome where
  | ok (b : BatchSuccess)
  | fail (batch_num start_page end_page : Nat) (error : String)
  deriving DecidableEq, Repr

/-- `_process_batch` (src/backend/ocr_agent.py:202-232) minus the external
model call: given the parsed model response, reconcile its page numbers
against the instructed absolute range. -/
def process_batch (start_page end_page : Nat) (parsed : ExtractionResult) :
    ExtractionResult :=
  force_fix_page_numbers (start_page : Int) (end_page : Int) parsed

/-- `_process_batch_with_retry` (src/backend/ocr_agent.py:234-281).  The
extraction oracle maps each attempt (0 = first try, 1 = retry) to the parsed
model response or to the raised exception's message. -/
def process_batch_with_retry
    (oracle : BatchTask → Fin 2 → Except String ExtractionResult)
    (t : BatchTask) : BatchOutcome :=
  match oracle t 0 with
  | .ok parsed =>
    .ok ⟨t.batch_num, t.start_page, t.end_page,
      process_batch t.start_page t.end_page parsed⟩
  | .error _ =>
    match oracle t 1 with
    | .ok parsed =>
      .ok ⟨t.batch_num, t.start_page, t.end_page,
        process_batch t.start_page t.end_page parsed⟩
    | .error e => .fail t.batch_num t.start_page t.end_page e

/-- A batch fails iff both of its attempts raise. -/
def failsTwice (oracle : BatchTask → Fin 2 → Except String ExtractionResult)
    (t : BatchTask) : Bool :=
  match oracle t 0, oracle t 1 with
  | .error _, .error _ => true
  | _, _ => false

/-- The collection loop over `as_completed` futures
(src/backend/ocr_agent.py:449-456): successes kept in completion order,
success/failure counters incremented. -/
def collectOutcomes : List BatchOutcome → List BatchSuccess × Nat × Nat
  | [] => ([], 0, 0)
  | .ok b :: rest =>
    let r := collectOutcomes rest
    (b :: r.1, r.2.1 + 1, r.2.2)
  | .fail _ _ _ _ :: rest =>
    let r := collectOutcomes rest
    (r.1, r.2.1, r.2.2 + 1)

/-- `batch_results.sort(key=lambda x: x["start_page"])`. -/
def leStart (a b : BatchSuccess) : Prop := a.start_page ≤ b.start_page

instance : DecidableRel leStart := fun _ _ => Nat.decLe _ _
instance : IsTotal BatchSuccess leStart := ⟨fun _ _ => Nat.le_total _ _⟩
instance : IsTrans BatchSuccess leStart := ⟨fun _ _ _ => Nat.le_trans⟩

/-- `processing_time` metadata without the wall-clock fields (elapsed seconds
and its formatted string are real-time measurements outside the embedding). -/
structure ProcessingTime where
  batch_count : Nat
  successful_batches : Option Nat
  failed_batches : Option Nat
  parallel_workers : Option Nat
  deriving DecidableEq, Repr

structure DocumentResult where
  success : Bool
  total_pages : Nat
  detected_type : String
  language : String
  blocks : List EBlock
  full_text : String
  key_value_pairs : List EKV
  tables : List ETable
  images_summary : Option ImagesSummary
  processing_time : Option ProcessingTime
  error : Option String
  deriving DecidableEq, Repr

/-- `_error_result` (src/backend/ocr_agent.py:549-554). -/
def error_result (msg : String) : DocumentResult :=
  ⟨false, 0, "", "", [], "", [], [], none, none, some msg⟩

/-- The tail of `_process` after all futures are collected
(src/backend/ocr_agent.py:458-492): fail when no batch succeeded, otherwise
sort the successes by start page, merge, and report batch counts. -/
def processCollected (total_pages total_batches max_workers : Nat)
    (collected : List BatchOutcome) : DocumentResult :=
  let c := collectOutcomes collected
  if c.1.isEmpty then error_result "所有批次處理都失敗"
  else
    let sorted := c.1.insertionSort leStart
    let merged := merge_results (sorted.map (·.result)) total_pages
    { success := true
      total_pages := total_pages
      detected_type := merged.detected_type
      language := merged.language
      blocks := merged.blocks
      full_text := merged.text_summary
      key_value_pairs := merged.key_value_pairs
      tables := merged.tables
      images_summary := some merged.images_summary
      processing_time := some ⟨total_batches, some c.2.1, some c.2.2, some max_workers⟩
      error := none }

/-- The single-batch path of `_process` (src/backend/ocr_agent.py:382-412):
one `_process_batch` call with no retry; a raised exception falls through to
the outer handler and becomes an error result. -/
def processSingle (total_pages : Nat)
    (attempt : Except String ExtractionResult) : DocumentResult :=
  match attempt with
  | .error e => error_result e
  | .ok parsed =>
    let r := process_batch 1 total_pages parsed
    { success := true
      total_pages := total_pages
      detected_type := r.detected_type.getD "unknown"
      language := r.language.getD "unknown"
      blocks := r.blocks
      full_text := r.summary.getD ""
      key_value_pairs := r.key_value_pairs
      tables := r.tables
      images_summary := if r.images.isEmpty then none
        else some ⟨r.images.length, r.images⟩
      processing_time := some ⟨1, none, none, none⟩
      error := none }

/-- `_process` (src/backend/ocr_agent.py:369-496).  `openResult` is the page
count the PDF library reports (`none` when opening the bytes raises);
`schedule` models the completion order of the worker pool (`as_completed`),
a permutation of the submitted batch outcomes. -/
def process_bytes (openResult : Option Nat)
    (oracle : BatchTask → Fin 2 → Except String ExtractionResult)
    (schedule : List BatchOutcome → List BatchOutcome)
    (max_workers : Nat) : DocumentResult :=
  let total_pages := get_pdf_page_count openResult
  let batch_size := get_batch_size total_pages
  if total_pages ≤ batch_size then
    processSingle total_pages (oracle ⟨1, 1, total_pages⟩ 0)
  else
    let tasks := makeBatchTasks total_pages batch_size
    let collected := schedule (tasks.map (process_batch_with_retry oracle))
    processCollected total_pages tasks.length max_workers collected

/-! ## String helpers

`String.toLower`, `<` on `String` and `splitOn` do not reduce in the kernel,
so the embedding uses character-list implementations with the same
semantics (Python `str.lower`, code-point comparison, substring test). -/

def lowerStr (s : String) : String := String.mk (s.data.map Char.toLower)

def charsStartWith : List Char → List Char → Bool
  | [], _ => true
  | _ :: _, [] => false
  | a :: as, b :: bs => a = b && charsStartWith as bs

/-- Python `needle in hay` on strings: substring containment. -/
def containsSub (hay needle : String) : Bool :=
  hay.data.tails.any (fun t => charsStartWith needle.data t)

/-- Strict lexicographic comparison by code point (Python `str` `<`). -/
def charsLt : List Char → List Char → Bool
  | [], [] => false
  | [], _ :: _ => true
  | _ :: _, [] => false
  | a :: as, b :: bs => if a = b then charsLt as bs else decide (a < b)

/-- Keep the first occurrence of each element (deduplication; the Python code
uses `set`, whose iteration order is unspecified, so only the underlying set
of elements is meaningful downstream). -/
def firstDedup (seen : List String) : List String → List String
  | [] => []
  | x :: xs =>
    if seen.contains x then firstDedup seen xs
    else x :: firstDedup (x :: seen) xs

/-! ## Keyword extraction (src/backend/api.py:297-317) -/

def stop_words : List String :=
  ["是", "什麼", "有", "哪些", "嗎", "呢", "的", "了", "在", "這", "那",
   "請", "問", "告訴", "我", "你", "他", "她", "它", "們"]

def common_phrases : List String :=
  ["學歷", "工作經歷", "技能", "經驗", "技術", "專案", "專案經歷",
   "聯絡", "email", "電話", "姓名", "技術架構", "Skills", "主修", "科系", "公司", "職位",
   "圖片", "地圖", "照片", "圖表", "logo", "標誌", "位置", "交通", "停車",
   "表格", "摘要", "總結", "內容", "說明"]

/-- `keywords = [w for w in question if len(w) >= 2 and w not in stop_words]`:
iterating a Python string yields its characters as length-1 strings. -/
def question_char_keywords (q : String) : List String :=
  (q.data.map (fun c => String.mk [c])).filter
    (fun w => decide (2 ≤ w.length) && !(stop_words.contains w))

/-- `keyword_phrases`: curated phrases occurring case-insensitively in the
question (`phrase.lower() in question.lower()`). -/
def keyword_phrases (q : String) : List String :=
  common_phrases.filter (fun p => containsSub (lowerStr q) (lowerStr p))

/-- `all_keywords = list(set(keywords + keyword_phrases))`. -/
def allKeywords (q : String) : List String :=
  firstDedup [] (question_char_keywords q ++ keyword_phrases q)

/-! ## Store records -/

structure KVRec where
  id : Nat
  document_id : String
  key : String
  value : String
  page : Option Nat
  filename : String
  deriving DecidableEq, Repr

structure BlockRec where
  id : Nat
  document_id : String
  block_type : String
  page : Nat
  region : String
  content : String
  filename : String
  deriving DecidableEq, Repr

/-- A row returned by the vector search `db.search_blocks` (the cosine
arithmetic happens in the external vector index, so these rows come from an
oracle). -/
structure HitBlock where
  id : Nat
  document_id : String
  block_type : String
  page : Nat
  region : String
  content : String
  filename : String
  base_similarity : Rat
  similarity : Rat
  deriving DecidableEq, Repr

structure DocRec where
  id : String
  filename : String
  summary : Option String
  deriving DecidableEq, Repr

/-- `if document_ids and len(document_ids) > 0:` — a `None` or empty scope
list means no restriction. -/
def inScope (document_ids : Option (List String)) (d : String) : Bool :=
  match document_ids with
  | some ids => if ids.isEmpty then true else ids.contains d
  | none => true

/-- SQL `text ILIKE '%kw%'`: case-insensitive substring match. -/
def ilike (text kw : String) : Bool :=
  containsSub (lowerStr text) (lowerStr kw)

def kvPageLeB (a b : KVRec) : Bool :=
  match a.page, b.page with
  | some x, some y => decide (x ≤ y)
  | some _, none => true
  | none, some _ => false
  | none, none => true

def kvPageLe (a b : KVRec) : Prop := kvPageLeB a b = true

instance : DecidableRel kvPageLe := fun _ _ => instDecidableEqBool _ _

/-- `db.search_key_values` (src/backend/database.py:327-395): rows of the
`key_values` table (already joined with the document filename) whose key or
value contains any keyword case-insensitively, within the optional document
scope, ordered by page (SQL ascending, NULLs last); `[]` when the connection
cannot be established or the keyword list is empty. -/
def search_key_values (conn : Bool) (table : List KVRec)
    (keywords : List String) (document_ids : Option (List String)) : List KVRec :=
  if !conn then []
  else if keywords.isEmpty then []
  else
    (table.filter (fun kv =>
      inScope document_ids kv.document_id &&
      keywords.any (fun k => ilike kv.key k || ilike kv.value k))).insertionSort
      kvPageLe

def blockOrdB (a b : BlockRec) : Bool :=
  decide (a.page < b.page) || (decide (a.page = b.page) && decide (a.id ≤ b.id))

def blockOrd (a b : BlockRec) : Prop := blockOrdB a b = true

instance : DecidableRel blockOrd := fun _ _ => instDecidableEqBool _ _

/-- `db.get_blocks_by_page_range` (src/backend/database.py:397-437): all
blocks of one document with `start_page ≤ page ≤ end_page`, ordered by
(page, id); `[]` when the connection cannot be established. -/
def get_blocks_by_page_range (conn : Bool) (table : List BlockRec)
    (document_id : String) (start_page end_page : Nat) : List BlockRec :=
  if !conn then []
  else
    (table.filter (fun b =>
      decide (b.document_id = document_id) &&
      decide (start_page ≤ b.page) && decide (b.page ≤ end_page))).insertionSort
      blockOrd

/-! ## Query logging (`db.log_query`, src/backend/database.py:539-609) -/

/-- `db.log_query`: `ensure_connection` swallows all connection errors and
reports a boolean; the INSERT is wrapped in try/except that rolls back and
returns `None`.  The `Except` result type records whether an exception would
propagate to the caller — by construction of the source none ever does. -/
def log_query (conn : Bool) (insertOutcome : Except String Nat) :
    Except String (Option Nat) :=
  if !conn then .ok none
  else
    match insertOutcome with
    | .ok logId => .ok (some logId)
    | .error _ => .ok none

/-! ## The `/ask` endpoint (`ask_question`, src/backend/api.py:265-549) -/

/-- External calls the retrieval path can make, in order. -/
inductive Call where
  | searchKV
  | embed
  | searchBlocks
  deriving DecidableEq, Repr

structure Source where
  filename : String
  page : Nat
  content : String
  similarity : Option Rat
  deriving DecidableEq, Repr

/-- The request-scoped view of the system: the persisted tables, the external
embedding/vector-search/generation services, and the audit-log store. -/
structure Store where
  kvConn : Bool
  rangeConn : Bool
  key_values : List KVRec
  blocksTable : List BlockRec
  documents : List DocRec
  embed : String → Option (List Rat)
  searchBlocks : List Rat → Nat → Option (List String) → List HitBlock
  generate : String → Except String String
  logConn : Bool
  logInsert : Except String Nat

/-- One element of the `sources` response list (src/backend/api.py:506-514):
preview of the first 100 characters with an ellipsis when longer, similarity
rounded to 3 decimals when truthy (Python treats `0.0` as falsy), else null. -/
def round3 (q : Rat) : Rat := (Rat.floor (q * 1000 + 1 / 2) : Int) / 1000

def mkSource (b : HitBlock) : Source :=
  { filename := b.filename
    page := b.page
    content := if 100 < b.content.length then b.content.take 100 ++ "..." else b.content
    similarity := if b.similarity = 0 then none else some (round3 b.similarity) }

/-- The `doc_page_ranges` dict: document id → accumulated page list. -/
def addPages (m : List (String × List Nat)) (d : String) (ps : List Nat) :
    List (String × List Nat) :=
  match m with
  | [] => [(d, ps)]
  | e :: rest =>
    if e.1 = d then (e.1, e.2 ++ ps) :: rest else e :: addPages rest d ps

/-- `for block in relevant_blocks: for p in range(page, page + 3): ...`
(src/backend/api.py:410-420). -/
def docPageRanges (hits : List HitBlock) : List (String × List Nat) :=
  hits.foldl (fun m h => addPages m h.document_id [h.page, h.page + 1, h.page + 2]) []

/-- Python `min` / `max` over a nonempty list (the 0 default is never
reached by the call sites, which guard against empty input). -/
def minL : List Nat → Nat
  | [] => 0
  | x :: xs => xs.foldl min x

def maxL : List Nat → Nat
  | [] => 0
  | x :: xs => xs.foldl max x

/-- The `seen_block_ids` deduplication (src/backend/api.py:429-433). -/
def dedupById (seen : List Nat) : List BlockRec → List BlockRec
  | [] => []
  | b :: rest =>
    if seen.contains b.id then dedupById seen rest
    else b :: dedupById (b.id :: seen) rest

/-- The vector-tier context expansion (src/backend/api.py:408-434): per hit
document take `min`–`max` of the accumulated window pages and fetch the whole
page interval, deduplicating by block id across documents. -/
def expandedVector (conn : Bool) (table : List BlockRec) (hits : List HitBlock) :
    List BlockRec :=
  dedupById [] ((docPageRanges hits).flatMap (fun e =>
    get_blocks_by_page_range conn table e.1 (minL e.2) (maxL e.2)))

/-- The keyword-tier supplementary expansion (src/backend/api.py:338-355):
pages of the matched key-values (Python truthiness: page `0`/`NULL` excluded),
their documents, and one trailing page. -/
def kvTruthyPages (matched : List KVRec) : List Nat :=
  matched.filterMap (fun kv =>
    match kv.page with
    | some p => if p = 0 then none else some p
    | none => none)

def kvDocIds (matched : List KVRec) : List String :=
  firstDedup [] (matched.filterMap (fun kv =>
    if kv.document_id = "" then none else some kv.document_id))

def expandedKV (conn : Bool) (table : List BlockRec) (matched : List KVRec) :
    List BlockRec :=
  (kvDocIds matched).flatMap (fun d =>
    if (kvTruthyPages matched).isEmpty then []
    else get_blocks_by_page_range conn table d (minL (kvTruthyPages matched))
      (maxL (kvTruthyPages matched) + 1))

/-- `f"- {kv['key']}: {kv['value']} (第{kv['page']}頁)"` joined by newlines. -/
def kvFactsText (matched : List KVRec) : String :=
  String.intercalate "\n" (matched.map (fun kv =>
    "- " ++ kv.key ++ ": " ++ kv.value ++ " (第" ++
      (match kv.page with
       | some p => toString p
       | none => "None") ++ "頁)"))

/-- Sort key of step 4: `(str(doc_id), page)` ascending. -/
def ctxLeB (a b : BlockRec) : Bool :=
  charsLt a.document_id.data b.document_id.data ||
    (decide (a.document_id = b.document_id) && decide (a.page ≤ b.page))

def ctxLe (a b : BlockRec) : Prop := ctxLeB a b = true

instance : DecidableRel ctxLe := fun _ _ => instDecidableEqBool _ _

def flushSection (filename : String) (page : Nat) (content : List String) : String :=
  "[來源: " ++ filename ++ ", 第" ++ toString page ++ "頁]\n" ++
    String.intercalate "\n" content

/-- The grouping loop of step 4 (src/backend/api.py:448-475): emit one section
per (document, page) run with non-empty content, headed by the filename of the
last block seen in the run. -/
def contextSections : List BlockRec → List String →
    Option (String × Nat × String) → List String → List String
  | [], parts, cur, pageContent =>
    match cur, pageContent with
    | some (_, p, fn), c :: cs => parts ++ [flushSection fn p (c :: cs)]
    | _, _ => parts
  | b :: rest, parts, cur, pageContent =>
    let flushed :=
      match cur, pageContent with
      | some (d, p, fn), c :: cs =>
        if d ≠ b.document_id ∨ p ≠ b.page then some (flushSection fn p (c :: cs))
        else none
      | _, _ => none
    let parts := match flushed with
      | some s => parts ++ [s]
      | none => parts
    let pageContent := match flushed with
      | some _ => []
      | none => pageContent
    let pageContent := if b.content = "" then pageContent
      else pageContent ++ [b.content]
    contextSections rest parts (some (b.document_id, b.page, b.filename)) pageContent

/-- The per-document summary sections appended when the query is scoped
(src/backend/api.py:478-484). -/
def summarySections (documents : List DocRec)
    (document_ids : Option (List String)) : List String :=
  match document_ids with
  | none => []
  | some ids =>
    if ids.isEmpty then []
    else ids.filterMap (fun d =>
      match documents.find? (fun doc => doc.id = d) with
      | none => none
      | some doc =>
        match doc.summary with
        | some s => if s = "" then none else
            some ("[文件摘要: " ++ doc.filename ++ "]\n" ++ s)
        | none => none)

def mkPrompt (context question : String) : String :=
  "根據以下文件內容回答問題。如果文件中沒有相關資訊，請說明。\n\n文件內容：\n" ++
    context ++ "\n\n問題：" ++ question ++ "\n\n請用繁體中文回答："

/-- The "not found" message (src/backend/api.py:376-381); the scoped variant
requires a truthy (non-empty) document-id list. -/
def notFoundMsg (document_ids : Option (List String)) : String :=
  "抱歉，在" ++
    (match document_ids with
     | some ids => if ids.isEmpty then "已上傳的文件中"
        else "選擇的 " ++ toString ids.length ++ " 份文件中"
     | none => "已上傳的文件中") ++ "找不到相關資訊。"

structure AskResult where
  response : Except Nat (String × List Source)
  calls : List Call
  deriving Repr

/-- The shared tail of `ask_question` (steps 4-5, src/backend/api.py:445-530):
sort and group the expanded blocks, append scoped document summaries, call the
generation model, build the sources from the vector hits, and log.  A raised
generation or logging exception is caught by the generic handler, which logs
the error and re-raises as HTTP 500. -/
def finishAsk (store : Store) (question : String)
    (document_ids : Option (List String)) (parts0 : List String)
    (expanded : List BlockRec) (relevant : List HitBlock)
    (calls : List Call) : AskResult :=
  let sortedExp := expanded.insertionSort ctxLe
  let parts := parts0 ++ contextSections sortedExp [] none [] ++
    summarySections store.documents document_ids
  let context := String.intercalate "\n\n" parts
  match store.generate (mkPrompt context question) with
  | .error _ =>
    match log_query store.logConn store.logInsert with
    | _ => ⟨.error 500, calls⟩
  | .ok answer =>
    let sources := relevant.map mkSource
    match log_query store.logConn store.logInsert with
    | .error _ => ⟨.error 500, calls⟩
    | .ok _ => ⟨.ok (answer, sources), calls⟩

/-- `ask_question` (src/backend/api.py:265-549), request-scoped retrieval:
keyword tier first; the vector tier (embedding + block search) only when the
keyword tier yields fewer than 2 rows; not-found short-circuit; context
assembly; generation; audit logging. -/
def ask_question (store : Store) (question : String) (top_k : Nat)
    (document_ids : Option (List String)) : AskResult :=
  let matched := search_key_values store.kvConn store.key_values
    (allKeywords question) document_ids
  if 2 ≤ matched.length ∧ matched ≠ [] then
    let expanded := expandedKV store.rangeConn store.blocksTable matched
    finishAsk store question document_ids ["[關鍵資訊]\n" ++ kvFactsText matched]
      expanded [] [.searchKV]
  else
    match store.embed question with
    | none => ⟨.error 500, [.searchKV, .embed]⟩
    | some qe =>
      let relevant := store.searchBlocks qe top_k document_ids
      if relevant.isEmpty ∧ matched.isEmpty then
        match log_query store.logConn store.logInsert with
        | .error _ => ⟨.error 500, [.searchKV, .embed, .searchBlocks]⟩
        | .ok _ =>
          ⟨.ok (notFoundMsg document_ids, []), [.searchKV, .embed, .searchBlocks]⟩
      else
        let expanded := expandedVector store.rangeConn store.blocksTable relevant
        let parts0 := if matched.isEmpty then []
          else ["[關鍵資訊]\n" ++ kvFactsText matched]
        finishAsk store question document_ids parts0 expanded relevant
          [.searchKV, .embed, .searchBlocks]

/-! ## Helper lemmas -/

lemma rangeStep_cons (lo hi step : Nat) (h : 0 < step) (h2 : lo < hi) :
    rangeStep lo hi step = lo :: rangeStep (lo + step) hi step := by
  unfold rangeStep
  rw [if_neg (by omega), if_neg (by omega)]
  have he : (hi - lo + step - 1) / step = (hi - (lo + step) + step - 1) / step + 1 := by
    rcases Nat.lt_or_ge hi (lo + step) with hlt | hle
    · have e1 : hi - lo + step - 1 = (hi - lo - 1) + step := by omega
      have e2 : hi - (lo + step) = 0 := by omega
      rw [e1, e2, Nat.add_div_right _ h]
      have : (hi - lo - 1) / step = 0 := Nat.div_eq_of_lt (by omega)
      have z : (0 + step - 1) / step = 0 := Nat.div_eq_of_lt (by omega)
      omega
    · have : hi - lo + step - 1 = (hi - (lo + step) + step - 1) + step := by omega
      rw [this, Nat.add_div_right _ h]
  rw [he, List.range_succ_eq_map]
  simp only [List.map_cons, List.map_map, Function.comp, Nat.zero_mul, Nat.add_zero,
    List.cons.injEq, true_and]
  apply List.map_congr_left
  intro k _
  simp only [Function.comp_apply, Nat.succ_eq_add_one]
  ring

lemma rangeStep_nil (lo hi step : Nat) (h2 : hi ≤ lo) :
    rangeStep lo hi step = [] := by
  unfold rangeStep
  split
  · rfl
  · have : (hi - lo + step - 1) / step = 0 := Nat.div_eq_of_lt (by omega)
    simp [this]

/-- The batch ranges produced for `[1, N]` are contiguous, non-empty,
in order, and cover `[1, N]` exactly. -/
def covers (s N : Nat) : List BatchTask → Prop
  | [] => s = N + 1
  | t :: ts => t.start_page = s ∧ t.start_page ≤ t.end_page ∧ t.end_page ≤ N ∧
      covers (t.end_page + 1) N ts

lemma makeBatchTasks_covers_aux (N bs : Nat) (hbs : 1 ≤ bs) :
    ∀ fuel lo k, lo ≤ N + 1 → 1 ≤ lo → N + 1 - lo ≤ fuel →
    covers lo N (((rangeStep lo (N + 1) bs).enumFrom k).map
      (fun p => ⟨p.1, p.2, min (p.2 + bs - 1) N⟩)) := by
  intro fuel
  induction fuel with
  | zero =>
    intro lo k h1 h2 h3
    have : lo = N + 1 := by omega
    subst this
    rw [rangeStep_nil _ _ _ (by omega)]
    simp [covers]
  | succ m ih =>
    intro lo k h1 h2 h3
    rcases Nat.lt_or_ge lo (N + 1) with hlt | hge
    · rw [rangeStep_cons _ _ _ (by omega) hlt]
      simp only [List.enumFrom, List.map_cons]
      dsimp only [covers]
      refine ⟨rfl, by omega, by omega, ?_⟩
      have he : min (lo + bs - 1) N + 1 = min (lo + bs) (N + 1) := by omega
      rw [he]
      rcases Nat.lt_or_ge N (lo + bs) with hc | hc
      · have : min (lo + bs) (N + 1) = N + 1 := by omega
        rw [this, rangeStep_nil _ _ _ (by omega)]
        simp [covers]
      · have : min (lo + bs) (N + 1) = lo + bs := by omega
        rw [this]
        exact ih (lo + bs) (k + 1) (by omega) (by omega) (by omega)
    · have : lo = N + 1 := by omega
      subst this
      rw [rangeStep_nil _ _ _ (by omega)]
      simp [covers]

lemma makeBatchTasks_covers (N bs : Nat) (hbs : 1 ≤ bs) :
    covers 1 N (makeBatchTasks N bs) := by
  unfold makeBatchTasks
  exact makeBatchTasks_covers_aux N bs hbs (N + 1) 1 1 (by omega) (by omega) (by omega)

/-! ## C10 -/

/-- C10: bytes that cannot be opened as a PDF make `_get_pdf_page_count`
return 1, and `process_bytes` then takes the single-batch path: exactly one
extraction attempt over pages 1-1, whose outcome alone decides success —
ingestion is not failed up front. -/
theorem c10_unparseable_bytes_single_attempt
    (oracle : BatchTask → Fin 2 → Except String ExtractionResult)
    (schedule : List BatchOutcome → List BatchOutcome) (w : Nat) :
    get_pdf_page_count none = 1 ∧
    process_bytes none oracle schedule w = processSingle 1 (oracle ⟨1, 1, 1⟩ 0) ∧
    (process_bytes none oracle schedule w).success =
      (match oracle ⟨1, 1, 1⟩ 0 with
       | .ok _ => true
       | .error _ => false) := by
  refine ⟨rfl, rfl, ?_⟩
  show (processSingle 1 (oracle ⟨1, 1, 1⟩ 0)).success = _
  cases oracle ⟨1, 1, 1⟩ 0 <;> rfl

/-! ## C7 -/

/-- C7 counterexample: the live backend Page Segmenter
(src/backend/ocr_agent.py) splits a 10-page document into four batches of
size 3; the claimed size-class policy says a document of at most 10 pages is
processed whole as a single batch. -/
theorem c7_counterexample :
    get_batch_size 10 = 3 ∧
    makeBatchTasks 10 (get_batch_size 10) =
      [⟨1, 1, 3⟩, ⟨2, 4, 6⟩, ⟨3, 7, 9⟩, ⟨4, 10, 10⟩] ∧
    (makeBatchTasks 10 (get_batch_size 10)).length ≠ 1 := by
  decide

/-- C7 amended: the live backend agent processes only documents of at most 3
pages whole as a single batch and uses a fixed batch size of 3 for
everything larger; the legacy agent processes documents of at most 10 pages
whole and uses batch sizes 5 / 8 / 10 for 11-30 / 31-100 / >100 pages. -/
theorem c7_amended (N : Nat) (hN : 1 ≤ N) :
    (N ≤ 3 → makeBatchTasks N (get_batch_size N) = [⟨1, 1, N⟩]) ∧
    (3 < N → get_batch_size N = 3) ∧
    (N ≤ 10 → legacy_get_batch_size N = N) ∧
    (10 < N → N ≤ 30 → legacy_get_batch_size N = 5) ∧
    (30 < N → N ≤ 100 → legacy_get_batch_size N = 8) ∧
    (100 < N → legacy_get_batch_size N = 10) := by
  refine ⟨?_, ?_, ?_, ?_, ?_, ?_⟩
  · intro h
    unfold makeBatchTasks get_batch_size
    rw [if_pos h, rangeStep_cons _ _ _ (by omega) (by omega),
      rangeStep_nil _ _ _ (by omega)]
    simp only [List.enumFrom, List.map_cons, List.map_nil]
    have : min (1 + N - 1) N = N := by omega
    rw [this]
  · intro h; unfold get_batch_size; rw [if_neg (by omega)]
  · intro h; unfold legacy_get_batch_size; rw [if_pos h]
  · intro h1 h2
    unfold legacy_get_batch_size
    rw [if_neg (by omega), if_pos h2]
  · intro h1 h2
    unfold legacy_get_batch_size
    rw [if_neg (by omega), if_neg (by omega), if_pos h2]
  · intro h
    unfold legacy_get_batch_size
    rw [if_neg (by omega), if_neg (by omega), if_neg (by omega)]

/-- C7 amended witness: a 2-page document is a single backend batch, a
25-page document gets backend batch size 3 and legacy batch size 5. -/
theorem c7_amended_witness :
    ((1 ≤ 2 ∧ 2 ≤ 3) ∧ makeBatchTasks 2 (get_batch_size 2) = [⟨1, 1, 2⟩]) ∧
    (1 ≤ 25 ∧ get_batch_size 25 = 3) ∧
    legacy_get_batch_size 25 = 5 :=
  ⟨⟨⟨by decide, by decide⟩, (c7_amended 2 (by decide)).1 (by decide)⟩,
   ⟨by decide, (c7_amended 25 (by decide)).2.1 (by decide)⟩,
   (c7_amended 25 (by decide)).2.2.2.1 (by decide) (by decide)⟩

/-! ## C5 -/

/-- Whitespace tokenization of a question (auxiliary for the spec-side
reading of "the question's tokens"). -/
def wsSplit : List Char → List Char → List String
  | [], cur => if cur.isEmpty then [] else [String.mk cur.reverse]
  | c :: rest, cur =>
    if c = ' ' then
      (if cur.isEmpty then wsSplit rest []
       else String.mk cur.reverse :: wsSplit rest [])
    else wsSplit rest (c :: cur)

def specQuestionTokens (q : String) : List String := wsSplit q.data []

/-- Modelled from the spec's words (comparison definition for the claim, not
from the source): the candidate keyword set is the question's tokens of
length ≥ 2 that are not stop words, together with the curated phrases that
occur case-insensitively in the question. -/
def specCandidateKeywords (q : String) : List String :=
  firstDedup [] ((specQuestionTokens q).filter
      (fun w => decide (2 ≤ w.length) && !(stop_words.contains w)) ++
    keyword_phrases q)

lemma question_char_keywords_nil (q : String) : question_char_keywords q = [] := by
  unfold question_char_keywords
  rw [List.filter_eq_nil_iff]
  intro w hw
  rcases List.mem_map.mp hw with ⟨c, _, rfl⟩
  simp [String.length]

/-- C5 counterexample: for the question "hello", the claimed candidate set
contains the token "hello" (length ≥ 2, not a stop word), but the code's
candidate set is empty — `for w in question` iterates characters, so the
length-≥2 token filter never fires. -/
theorem c5_counterexample :
    "hello" ∈ specCandidateKeywords "hello" ∧ allKeywords "hello" = [] := by
  decide

/-- C5 amended: the candidate keyword set equals exactly the curated phrases
occurring case-insensitively as substrings of the question; the token tier
contributes nothing because iterating a Python string yields single
characters, which never pass the length-≥2 filter. -/
theorem c5_amended_keywords_are_phrases (q : String) :
    allKeywords q = firstDedup [] (keyword_phrases q) := by
  unfold allKeywords
  rw [question_char_keywords_nil q, List.nil_append]

/-! ## C2 -/

lemma finishAsk_calls (store : Store) (question : String)
    (document_ids : Option (List String)) (parts0 : List String)
    (expanded : List BlockRec) (relevant : List HitBlock) (cs : List Call) :
    (finishAsk store question document_ids parts0 expanded relevant cs).calls = cs := by
  unfold finishAsk
  dsimp only
  split
  · rfl
  · split <;> rfl

/-- C2: when the keyword tier over KeyValue records returns at least 2
matches, the answer path makes no embedding call and no vector block search
— the vector tier is suppressed entirely. -/
theorem c2_keyword_tier_suppresses_vector (store : Store) (question : String)
    (top_k : Nat) (document_ids : Option (List String))
    (h : 2 ≤ (search_key_values store.kvConn store.key_values
        (allKeywords question) document_ids).length) :
    Call.embed ∉ (ask_question store question top_k document_ids).calls ∧
    Call.searchBlocks ∉ (ask_question store question top_k document_ids).calls := by
  have hne : search_key_values store.kvConn store.key_values
      (allKeywords question) document_ids ≠ [] := by
    intro he
    rw [he] at h
    simp at h
  have hres : (ask_question store question top_k document_ids).calls = [Call.searchKV] := by
    unfold ask_question
    rw [if_pos ⟨h, hne⟩, finishAsk_calls]
  rw [hres]
  simp

def demoKV1 : KVRec := ⟨1, "d1", "聯絡電話", "02-1234", some 1, "cv.pdf"⟩
def demoKV2 : KVRec := ⟨2, "d1", "聯絡地址", "台北", some 2, "cv.pdf"⟩

def c2Store : Store :=
  { kvConn := true
    rangeConn := true
    key_values := [demoKV1, demoKV2]
    blocksTable := []
    documents := []
    embed := fun _ => none
    searchBlocks := fun _ _ _ => []
    generate := fun _ => .ok "答案"
    logConn := true
    logInsert := .ok 1 }

/-- C2 witness: the question "聯絡方式" matches two stored key-values, and the
answer path indeed performs no embedding and no vector search. -/
theorem c2_witness :
    2 ≤ (search_key_values c2Store.kvConn c2Store.key_values
        (allKeywords "聯絡方式") none).length ∧
    Call.embed ∉ (ask_question c2Store "聯絡方式" 10 none).calls ∧
    Call.searchBlocks ∉ (ask_question c2Store "聯絡方式" 10 none).calls :=
  ⟨by decide,
   (c2_keyword_tier_suppresses_vector c2Store "聯絡方式" 10 none (by decide)).1,
   (c2_keyword_tier_suppresses_vector c2Store "聯絡方式" 10 none (by decide)).2⟩

/-! ## C9 -/

lemma log_query_eq_ok (c : Bool) (i : Except String Nat) :
    log_query c i = .ok (if !c then none
      else match i with
           | .ok l => some l
           | .error _ => none) := by
  cases c <;> cases i <;> rfl

lemma finishAsk_response (store : Store) (question : String)
    (document_ids : Option (List String)) (parts0 : List String)
    (expanded : List BlockRec) (relevant : List HitBlock) (cs : List Call) :
    (finishAsk store question document_ids parts0 expanded relevant cs).response =
      match store.generate (mkPrompt (String.intercalate "\n\n"
          (parts0 ++ contextSections (expanded.insertionSort ctxLe) [] none [] ++
            summarySections store.documents document_ids)) question) with
      | .error _ => .error 500
      | .ok a => .ok (a, relevant.map mkSource) := by
  unfold finishAsk
  dsimp only
  split
  · rfl
  · rw [log_query_eq_ok]

/-- C9: `log_query` never lets a store failure escape — a failed connection
or a raising INSERT both yield a normal `None` return — and the
question-answering response is completely independent of the logging
connection state and insert outcome. -/
theorem c9_logging_is_isolated (store : Store) (question : String) (top_k : Nat)
    (document_ids : Option (List String)) (c₁ c₂ : Bool)
    (i₁ i₂ : Except String Nat) :
    (∃ v, log_query c₁ i₁ = Except.ok v) ∧
    (∀ e, i₁ = .error e → log_query true i₁ = Except.ok none) ∧
    (ask_question { store with logConn := c₁, logInsert := i₁ }
        question top_k document_ids).response =
      (ask_question { store with logConn := c₂, logInsert := i₂ }
        question top_k document_ids).response := by
  refine ⟨⟨_, log_query_eq_ok c₁ i₁⟩, ?_, ?_⟩
  · intro e he
    subst he
    rfl
  · unfold ask_question
    dsimp only
    split
    · rw [finishAsk_response, finishAsk_response]
    · split
      · rfl
      · split
        · rw [log_query_eq_ok, log_query_eq_ok]
        · rw [finishAsk_response, finishAsk_response]

/-! ## C8 -/

/-- Modelled from the spec's words (comparison definition for the claim, not
from the source): every returned source carries the matched block's
similarity rounded to 3 decimals (null being reserved for keyword-only
matches, which a vector hit is not). -/
def specSource (b : HitBlock) : Source :=
  { filename := b.filename
    page := b.page
    content := if 100 < b.content.length then b.content.take 100 ++ "..." else b.content
    similarity := some (round3 b.similarity) }

lemma mkSource_fields (b : HitBlock) :
    (mkSource b).filename = b.filename ∧ (mkSource b).page = b.page ∧
    (mkSource b).content =
      (if 100 < b.content.length then b.content.take 100 ++ "..." else b.content) ∧
    (b.similarity = 0 → (mkSource b).similarity = none) ∧
    (b.similarity ≠ 0 → (mkSource b).similarity = some (round3 b.similarity)) := by
  refine ⟨rfl, rfl, rfl, ?_, ?_⟩
  · intro h
    unfold mkSource
    dsimp only
    rw [if_pos h]
  · intro h
    unfold mkSource
    dsimp only
    rw [if_neg h]

/-- C8 amended: every source returned by `/ask` is built from a vector-tier
hit block and carries its filename, its page, the first-100-characters
preview with an ellipsis exactly when the content is longer, and a
similarity that is the block's score rounded to 3 decimals when that score
is nonzero and null when it is zero (Python truthiness); keyword-only
matches never contribute sources. -/
theorem c8_amended_source_shape (store : Store) (question : String)
    (top_k : Nat) (document_ids : Option (List String)) (a : String)
    (srcs : List Source)
    (h : (ask_question store question top_k document_ids).response =
      Except.ok (a, srcs)) :
    ∀ s ∈ srcs, ∃ b, s = mkSource b ∧
      b ∈ (match store.embed question with
           | some qe => store.searchBlocks qe top_k document_ids
           | none => []) ∧
      s.filename = b.filename ∧ s.page = b.page ∧
      s.content =
        (if 100 < b.content.length then b.content.take 100 ++ "..." else b.content) ∧
      (b.similarity = 0 → s.similarity = none) ∧
      (b.similarity ≠ 0 → s.similarity = some (round3 b.similarity)) := by
  have hsrcs : srcs = [] ∨ ∃ qe, store.embed question = some qe ∧
      srcs = (store.searchBlocks qe top_k document_ids).map mkSource := by
    unfold ask_question at h
    dsimp only at h
    split at h
    · rw [finishAsk_response] at h
      split at h
      · exact absurd h (by simp)
      · left
        simpa using (congrArg (fun r => match r with
          | Except.ok p => p.2
          | Except.error _ => []) h).symm
    · split at h
      · exact absurd h (by simp)
      · rename_i qe hqe
        split at h
        · split at h
          · exact absurd h (by simp)
          · left
            simpa using (congrArg (fun r => match r with
              | Except.ok p => p.2
              | Except.error _ => []) h).symm
        · rw [finishAsk_response] at h
          split at h
          · exact absurd h (by simp)
          · right
            refine ⟨qe, hqe, ?_⟩
            simpa using (congrArg (fun r => match r with
              | Except.ok p => p.2
              | Except.error _ => []) h).symm
  rcases hsrcs with hnil | ⟨qe, hqe, hmap⟩
  · subst hnil
    intro s hs
    exact absurd hs (by simp)
  · subst hmap
    intro s hs
    rcases List.mem_map.mp hs with ⟨b, hb, rfl⟩
    refine ⟨b, rfl, ?_, mkSource_fields b⟩
    rw [hqe]
    exact hb

def c8Hit : HitBlock :=
  ⟨11, "d1", "text", 4, "中央", "第四頁內容", "report.pdf", 1, 1⟩

def c8Store : Store :=
  { kvConn := false
    rangeConn := true
    key_values := []
    blocksTable := []
    documents := []
    embed := fun _ => some [1]
    searchBlocks := fun _ _ _ => [c8Hit]
    generate := fun _ => .ok "答"
    logConn := true
    logInsert := .ok 1 }

/-- C8 amended witness: a concrete vector hit produces exactly one source of
the described shape. -/
theorem c8_amended_witness :
    (ask_question c8Store "問" 5 none).response = Except.ok ("答", [mkSource c8Hit]) ∧
    (∀ s ∈ [mkSource c8Hit], ∃ b, s = mkSource b ∧
      b ∈ (match c8Store.embed "問" with
           | some qe => c8Store.searchBlocks qe 5 none
           | none => []) ∧
      s.filename = b.filename ∧ s.page = b.page ∧
      s.content =
        (if 100 < b.content.length then b.content.take 100 ++ "..." else b.content) ∧
      (b.similarity = 0 → s.similarity = none) ∧
      (b.similarity ≠ 0 → s.similarity = some (round3 b.similarity))) :=
  ⟨rfl, c8_amended_source_shape c8Store "問" 5 none "答" [mkSource c8Hit] rfl⟩

def c8ZHit : HitBlock :=
  ⟨12, "d1", "text", 4, "中央", "零分內容", "report.pdf", 0, 0⟩

def c8ZStore : Store :=
  { kvConn := false
    rangeConn := true
    key_values := []
    blocksTable := []
    documents := []
    embed := fun _ => some [1]
    searchBlocks := fun _ _ _ => [c8ZHit]
    generate := fun _ => .ok "答"
    logConn := true
    logInsert := .ok 1 }

/-- C8 counterexample: a vector hit whose similarity is exactly 0 is returned
with a null similarity (Python `if b.get("similarity")` treats `0.0` as
falsy), although it is not a keyword-only match — the claim requires a
3-decimal rounded score for it. -/
theorem c8_counterexample :
    (ask_question c8ZStore "問" 5 none).response =
      Except.ok ("答", [mkSource c8ZHit]) ∧
    (mkSource c8ZHit).similarity = none ∧
    (specSource c8ZHit).similarity = some (round3 c8ZHit.similarity) ∧
    mkSource c8ZHit ≠ specSource c8ZHit := by
  refine ⟨rfl, rfl, rfl, ?_⟩
  intro h
  have h2 := congrArg Source.similarity h
  rw [show (mkSource c8ZHit).similarity = none from rfl] at h2
  rw [show (specSource c8ZHit).similarity = some (round3 c8ZHit.similarity) from rfl] at h2
  exact Option.noConfusion h2

def c9Store : Store :=
  { kvConn := true
    rangeConn := true
    key_values := []
    blocksTable := []
    documents := []
    embed := fun _ => some [1]
    searchBlocks := fun _ _ _ => []
    generate := fun _ => .ok "答"
    logConn := true
    logInsert := .ok 1 }

/-- C9 witness: with the log store down (connection failed / INSERT raising),
`log_query` still returns normally and the response is unchanged. -/
theorem c9_witness :
    (∃ v, log_query false (.error "db down") = Except.ok v) ∧
    (∀ e, (Except.error "db down" : Except String Nat) = .error e →
      log_query true (.error "db down") = Except.ok none) ∧
    (ask_question { c9Store with logConn := false, logInsert := .error "db down" }
        "聯絡" 5 none).response =
      (ask_question { c9Store with logConn := true, logInsert := .ok 9 }
        "聯絡" 5 none).response :=
  c9_logging_is_isolated c9Store "聯絡" 5 none false true (.error "db down") (.ok 9)

/-! ## C1 -/

lemma fix_page_bounds (s e : Int) (h2 : s ≤ e) (v : PageVal) :
    s ≤ fix_page s e v ∧ fix_page s e v ≤ e := by
  rcases v with n | n | _ <;> unfold fix_page <;> dsimp [PageVal.toIntValue]
  · split_ifs <;> omega
  · split_ifs <;> omega
  · exact ⟨le_refl s, h2⟩

/-- A page field after reconciliation: absent, or an integer within
`[lo, hi]`. -/
def pageFixed (lo hi : Int) : Option PageVal → Prop
  | some pv => ∃ n, pv = .intv n ∧ lo ≤ n ∧ n ≤ hi
  | none => True

lemma mergeBlocksLoop_mem (tag : String) :
    ∀ (bs : List EBlock) (c : Nat) (b : EBlock),
      b ∈ (mergeBlocksLoop tag c bs).1 → ∃ b₀ ∈ bs, b = { b₀ with id := b.id } := by
  intro bs
  induction bs with
  | nil =>
    intro c b h
    exact absurd h (by simp [mergeBlocksLoop])
  | cons x xs ih =>
    intro c b h
    simp only [mergeBlocksLoop, List.mem_cons] at h
    rcases h with rfl | h
    · exact ⟨x, List.mem_cons_self x xs, rfl⟩
    · rcases ih (c + 1) b h with ⟨b₀, hb₀, he⟩
      exact ⟨b₀, List.mem_cons_of_mem x hb₀, he⟩

lemma mergeTablesLoop_mem :
    ∀ (ts : List ETable) (c : Nat) (t : ETable),
      t ∈ (mergeTablesLoop c ts).1 → ∃ t₀ ∈ ts, t = { t₀ with id := t.id } := by
  intro ts
  induction ts with
  | nil =>
    intro c t h
    exact absurd h (by simp [mergeTablesLoop])
  | cons x xs ih =>
    intro c t h
    simp only [mergeTablesLoop, List.mem_cons] at h
    rcases h with rfl | h
    · exact ⟨x, List.mem_cons_self x xs, rfl⟩
    · rcases ih (c + 1) t h with ⟨t₀, ht₀, he⟩
      exact ⟨t₀, List.mem_cons_of_mem x ht₀, he⟩

lemma mergeImagesLoop_mem :
    ∀ (is : List EImage) (c : Nat) (i : EImage),
      i ∈ (mergeImagesLoop c is).1 → ∃ i₀ ∈ is, i = { i₀ with id := i.id } := by
  intro is
  induction is with
  | nil =>
    intro c i h
    exact absurd h (by simp [mergeImagesLoop])
  | cons x xs ih =>
    intro c i h
    simp only [mergeImagesLoop, List.mem_cons] at h
    rcases h with rfl | h
    · exact ⟨x, List.mem_cons_self x xs, rfl⟩
    · rcases ih (c + 1) i h with ⟨i₀, hi₀, he⟩
      exact ⟨i₀, List.mem_cons_of_mem x hi₀, he⟩

lemma mergeLoop_blocks_mem :
    ∀ (rs : List ExtractionResult) (st : MergeState) (b : EBlock),
      b ∈ (mergeLoop st rs).blocks →
      b ∈ st.blocks ∨ ∃ r ∈ rs, ∃ b₀ ∈ r.blocks, b = { b₀ with id := b.id } := by
  intro rs
  induction rs with
  | nil =>
    intro st b h
    exact Or.inl h
  | cons r rest ih =>
    intro st b h
    rcases ih (mergeStep st r) b h with hst | ⟨r', hr', b₀, hb₀, he⟩
    · have : (mergeStep st r).blocks =
          st.blocks ++ (mergeBlocksLoop "block_" st.block_counter r.blocks).1 := rfl
      rw [this] at hst
      rcases List.mem_append.mp hst with hl | hr
      · exact Or.inl hl
      · rcases mergeBlocksLoop_mem "block_" r.blocks st.block_counter b hr with ⟨b₀, hb₀, he⟩
        exact Or.inr ⟨r, List.mem_cons_self r rest, b₀, hb₀, he⟩
    · exact Or.inr ⟨r', List.mem_cons_of_mem r hr', b₀, hb₀, he⟩

lemma mergeLoop_kv_mem :
    ∀ (rs : List ExtractionResult) (st : MergeState) (kv : EKV),
      kv ∈ (mergeLoop st rs).key_value_pairs →
      kv ∈ st.key_value_pairs ∨ ∃ r ∈ rs, kv ∈ r.key_value_pairs := by
  intro rs
  induction rs with
  | nil =>
    intro st kv h
    exact Or.inl h
  | cons r rest ih =>
    intro st kv h
    rcases ih (mergeStep st r) kv h with hst | ⟨r', hr', hkv⟩
    · have : (mergeStep st r).key_value_pairs =
          st.key_value_pairs ++ r.key_value_pairs := rfl
      rw [this] at hst
      rcases List.mem_append.mp hst with hl | hr
      · exact Or.inl hl
      · exact Or.inr ⟨r, List.mem_cons_self r rest, hr⟩
    · exact Or.inr ⟨r', List.mem_cons_of_mem r hr', hkv⟩

lemma mergeLoop_tables_mem :
    ∀ (rs : List ExtractionResult) (st : MergeState) (t : ETable),
      t ∈ (mergeLoop st rs).tables →
      t ∈ st.tables ∨ ∃ r ∈ rs, ∃ t₀ ∈ r.tables, t = { t₀ with id := t.id } := by
  intro rs
  induction rs with
  | nil =>
    intro st t h
    exact Or.inl h
  | cons r rest ih =>
    intro st t h
    rcases ih (mergeStep st r) t h with hst | ⟨r', hr', t₀, ht₀, he⟩
    · have : (mergeStep st r).tables =
          st.tables ++ (mergeTablesLoop st.table_counter r.tables).1 := rfl
      rw [this] at hst
      rcases List.mem_append.mp hst with hl | hr
      · exact Or.inl hl
      · rcases mergeTablesLoop_mem r.tables st.table_counter t hr with ⟨t₀, ht₀, he⟩
        exact Or.inr ⟨r, List.mem_cons_self r rest, t₀, ht₀, he⟩
    · exact Or.inr ⟨r', List.mem_cons_of_mem r hr', t₀, ht₀, he⟩

lemma mergeLoop_items_mem :
    ∀ (rs : List ExtractionResult) (st : MergeState) (i : EImage),
      i ∈ (mergeLoop st rs).items →
      i ∈ st.items ∨ ∃ r ∈ rs, ∃ i₀ ∈ r.images, i = { i₀ with id := i.id } := by
  intro rs
  induction rs with
  | nil =>
    intro st i h
    exact Or.inl h
  | cons r rest ih =>
    intro st i h
    rcases ih (mergeStep st r) i h with hst | ⟨r', hr', i₀, hi₀, he⟩
    · have : (mergeStep st r).items =
          (if r.images.isEmpty then st.items
           else st.items ++ (mergeImagesLoop st.image_counter r.images).1) := rfl
      rw [this] at hst
      split at hst
      · exact Or.inl hst
      · rcases List.mem_append.mp hst with hl | hr
        · exact Or.inl hl
        · rcases mergeImagesLoop_mem r.images st.image_counter i hr with ⟨i₀, hi₀, he⟩
          exact Or.inr ⟨r, List.mem_cons_self r rest, i₀, hi₀, he⟩
    · exact Or.inr ⟨r', List.mem_cons_of_mem r hr', i₀, hi₀, he⟩

/-- Modelled from the claim's parenthetical (comparison definition, from the
claim's words rather than the source): any non-integer page value becomes the
start page unconditionally. -/
def specFixPage (s e : Int) (v : PageVal) : Int :=
  match v with
  | .intv n =>
    if 1 ≤ n ∧ n ≤ e - s + 1 then n + s - 1
    else if s ≤ n ∧ n ≤ e then n
    else s
  | _ => s

/-- C1 counterexample: with instructed range `[3, 5]`, a non-integer page
value that Python `int()` can parse (e.g. the string "2") is converted and
remapped to 4, not replaced by the start page 3 as the claim states. -/
theorem c1_counterexample :
    fix_page 3 5 (.parseable 2) = 4 ∧ specFixPage 3 5 (.parseable 2) = 3 ∧
    fix_page 3 5 (.parseable 2) ≠ specFixPage 3 5 (.parseable 2) := by
  decide

/-- C1 amended: after `_force_fix_page_numbers` with instructed range
`[s, e]` (1 ≤ s ≤ e), every present page field of every block, key-value
pair, table and image is an integer within `[s, e]` — values in
`[1, e-s+1]` (after `int()` conversion for parseable non-integers) are
remapped to `value + s - 1`, values already in `[s, e]` are kept, anything
else, including a non-integer that fails `int()` conversion, becomes `s`;
consequently, merging batches whose ranges lie within `[1, total_pages]`
yields only page numbers within `[1, total_pages]`. -/
theorem c1_amended_pages_in_range (s e : Int) (_h1 : 1 ≤ s) (h2 : s ≤ e)
    (r : ExtractionResult) :
    (∀ b ∈ (force_fix_page_numbers s e r).blocks, pageFixed s e b.page) ∧
    (∀ kv ∈ (force_fix_page_numbers s e r).key_value_pairs, pageFixed s e kv.page) ∧
    (∀ t ∈ (force_fix_page_numbers s e r).tables, pageFixed s e t.page) ∧
    (∀ i ∈ (force_fix_page_numbers s e r).images, pageFixed s e i.page) ∧
    (∀ (total : Nat) (batches : List (Int × Int × ExtractionResult)),
      (∀ p ∈ batches, 1 ≤ p.1 ∧ p.1 ≤ p.2.1 ∧ p.2.1 ≤ (total : Int)) →
      ∀ tp,
        (∀ b ∈ (merge_results (batches.map
            (fun p => force_fix_page_numbers p.1 p.2.1 p.2.2)) tp).blocks,
          pageFixed 1 (total : Int) b.page) ∧
        (∀ kv ∈ (merge_results (batches.map
            (fun p => force_fix_page_numbers p.1 p.2.1 p.2.2)) tp).key_value_pairs,
          pageFixed 1 (total : Int) kv.page) ∧
        (∀ t ∈ (merge_results (batches.map
            (fun p => force_fix_page_numbers p.1 p.2.1 p.2.2)) tp).tables,
          pageFixed 1 (total : Int) t.page) ∧
        (∀ i ∈ (merge_results (batches.map
            (fun p => force_fix_page_numbers p.1 p.2.1 p.2.2)) tp).images_summary.items,
          pageFixed 1 (total : Int) i.page)) := by
  have hfix : ∀ (lo hi : Int), lo ≤ hi → ∀ (op : Option PageVal),
      pageFixed lo hi (op.map (fun v => .intv (fix_page lo hi v))) := by
    intro lo hi hle op
    cases op with
    | none => trivial
    | some v => exact ⟨fix_page lo hi v, rfl, (fix_page_bounds lo hi hle v).1,
        (fix_page_bounds lo hi hle v).2⟩
  have hblocks : ∀ (lo hi : Int), lo ≤ hi → ∀ (rr : ExtractionResult),
      ∀ b ∈ (force_fix_page_numbers lo hi rr).blocks, pageFixed lo hi b.page := by
    intro lo hi hle rr b hb
    rcases List.mem_map.mp hb with ⟨b₀, _, rfl⟩
    exact hfix lo hi hle b₀.page
  have hkvs : ∀ (lo hi : Int), lo ≤ hi → ∀ (rr : ExtractionResult),
      ∀ kv ∈ (force_fix_page_numbers lo hi rr).key_value_pairs,
        pageFixed lo hi kv.page := by
    intro lo hi hle rr kv hkv
    rcases List.mem_map.mp hkv with ⟨kv₀, _, rfl⟩
    exact hfix lo hi hle kv₀.page
  have htabs : ∀ (lo hi : Int), lo ≤ hi → ∀ (rr : ExtractionResult),
      ∀ t ∈ (force_fix_page_numbers lo hi rr).tables, pageFixed lo hi t.page := by
    intro lo hi hle rr t ht
    rcases List.mem_map.mp ht with ⟨t₀, _, rfl⟩
    exact hfix lo hi hle t₀.page
  have himgs : ∀ (lo hi : Int), lo ≤ hi → ∀ (rr : ExtractionResult),
      ∀ i ∈ (force_fix_page_numbers lo hi rr).images, pageFixed lo hi i.page := by
    intro lo hi hle rr i hi2
    rcases List.mem_map.mp hi2 with ⟨i₀, _, rfl⟩
    exact hfix lo hi hle i₀.page
  refine ⟨hblocks s e h2 r, hkvs s e h2 r, htabs s e h2 r, himgs s e h2 r, ?_⟩
  intro total batches hb tp
  have hmem : ∀ res ∈ batches.map (fun p => force_fix_page_numbers p.1 p.2.1 p.2.2),
      ∃ p ∈ batches, res = force_fix_page_numbers p.1 p.2.1 p.2.2 := by
    intro res hres
    rcases List.mem_map.mp hres with ⟨p, hp, rfl⟩
    exact ⟨p, hp, rfl⟩
  have hpage : ∀ (lo hi : Int) (op : Option PageVal), pageFixed lo hi op →
      1 ≤ lo → hi ≤ (total : Int) → pageFixed 1 (total : Int) op := by
    intro lo hi op hpf hlo hhi
    cases op with
    | none => trivial
    | some pv =>
      rcases hpf with ⟨n, rfl, hn1, hn2⟩
      exact ⟨n, rfl, by omega, by omega⟩
  refine ⟨?_, ?_, ?_, ?_⟩
  · intro b hbm
    rcases mergeLoop_blocks_mem _ _ _ hbm with hinit | ⟨res, hres, b₀, hb₀, he⟩
    · exact absurd hinit (by simp [initMergeState])
    · rcases hmem res hres with ⟨p, hp, rfl⟩
      rcases hb p hp with ⟨hp1, hp2, hp3⟩
      have hpg : b.page = b₀.page := by rw [he]
      rw [hpg]
      exact hpage p.1 p.2.1 _ (hblocks p.1 p.2.1 hp2 p.2.2 b₀ hb₀) hp1 hp3
  · intro kv hkvm
    rcases mergeLoop_kv_mem _ _ _ hkvm with hinit | ⟨res, hres, hkv⟩
    · exact absurd hinit (by simp [initMergeState])
    · rcases hmem res hres with ⟨p, hp, rfl⟩
      rcases hb p hp with ⟨hp1, hp2, hp3⟩
      exact hpage p.1 p.2.1 _ (hkvs p.1 p.2.1 hp2 p.2.2 kv hkv) hp1 hp3
  · intro t htm
    rcases mergeLoop_tables_mem _ _ _ htm with hinit | ⟨res, hres, t₀, ht₀, he⟩
    · exact absurd hinit (by simp [initMergeState])
    · rcases hmem res hres with ⟨p, hp, rfl⟩
      rcases hb p hp with ⟨hp1, hp2, hp3⟩
      have hpg : t.page = t₀.page := by rw [he]
      rw [hpg]
      exact hpage p.1 p.2.1 _ (htabs p.1 p.2.1 hp2 p.2.2 t₀ ht₀) hp1 hp3
  · intro i him
    rcases mergeLoop_items_mem _ _ _ him with hinit | ⟨res, hres, i₀, hi₀, he⟩
    · exact absurd hinit (by simp [initMergeState])
    · rcases hmem res hres with ⟨p, hp, rfl⟩
      rcases hb p hp with ⟨hp1, hp2, hp3⟩
      have hpg : i.page = i₀.page := by rw [he]
      rw [hpg]
      exact hpage p.1 p.2.1 _ (himgs p.1 p.2.1 hp2 p.2.2 i₀ hi₀) hp1 hp3

def c1Demo : ExtractionResult :=
  { detected_type := some "履歷"
    language := some "zh-TW"
    blocks := [⟨"b1", "text", some (.intv 1), "中央", "內容一"⟩,
               ⟨"b2", "text", some (.intv 99), "中央", "內容二"⟩,
               ⟨"b3", "text", some (.parseable 2), "中央", "內容三"⟩,
               ⟨"b4", "text", some .unparsable, "中央", "內容四"⟩]
    key_value_pairs := [⟨"姓名", "王小明", some (.intv 3)⟩]
    tables := [⟨"t1", some (.intv 0), "表格", "資料"⟩]
    images := [⟨"i1", "photo", some (.intv 2), "照片"⟩]
    summary := some "摘要" }

/-- C1 amended witness at range `[2, 3]` on a concrete result containing a
relative page, an out-of-range page, a parseable non-integer page and an
unparsable page. -/
theorem c1_amended_witness :
    (1 ≤ (2 : Int) ∧ (2 : Int) ≤ 3) ∧
    (∀ b ∈ (force_fix_page_numbers 2 3 c1Demo).blocks, pageFixed 2 3 b.page) ∧
    (∀ kv ∈ (force_fix_page_numbers 2 3 c1Demo).key_value_pairs,
      pageFixed 2 3 kv.page) :=
  ⟨⟨by decide, by decide⟩,
   (c1_amended_pages_in_range 2 3 (by decide) (by decide) c1Demo).1,
   (c1_amended_pages_in_range 2 3 (by decide) (by decide) c1Demo).2.1⟩

/-! ## C3 -/

def ltStart (a b : BatchSuccess) : Prop := a.start_page < b.start_page

instance : IsAntisymm BatchSuccess ltStart :=
  ⟨fun _ _ h1 h2 => absurd h2 (Nat.lt_asymm h1)⟩

lemma insertionSort_unique (l₁ l₂ : List BatchSuccess) (hp : l₁.Perm l₂)
    (hd : (l₁.map (·.start_page)).Nodup) :
    l₁.insertionSort leStart = l₂.insertionSort leStart := by
  have hp₁ : (l₁.insertionSort leStart).Perm l₁ := List.perm_insertionSort leStart l₁
  have hp₂ : (l₂.insertionSort leStart).Perm l₂ := List.perm_insertionSort leStart l₂
  have hpp : (l₁.insertionSort leStart).Perm (l₂.insertionSort leStart) :=
    hp₁.trans (hp.trans hp₂.symm)
  have strict : ∀ (l : List BatchSuccess), (l.map (·.start_page)).Nodup →
      List.Sorted ltStart (l.insertionSort leStart) := by
    intro l hnd
    have hs : List.Sorted leStart (l.insertionSort leStart) :=
      List.sorted_insertionSort leStart l
    have hnd' : ((l.insertionSort leStart).map (·.start_page)).Nodup :=
      (((List.perm_insertionSort leStart l).map (·.start_page)).nodup_iff).mpr hnd
    have hne : (l.insertionSort leStart).Pairwise
        (fun a b => a.start_page ≠ b.start_page) := List.pairwise_map.mp hnd'
    exact (hs.and hne).imp (fun h => Nat.lt_of_le_of_ne h.1 h.2)
  have hd₂ : (l₂.map (·.start_page)).Nodup := ((hp.map (·.start_page)).nodup_iff).mp hd
  exact List.eq_of_perm_of_sorted hpp (strict l₁ hd) (strict l₂ hd₂)

def outcomeSuccess : BatchOutcome → Option BatchSuccess
  | .ok b => some b
  | .fail _ _ _ _ => none

def outcomeIsOk : BatchOutcome → Bool
  | .ok _ => true
  | .fail _ _ _ _ => false

lemma collectOutcomes_eq (l : List BatchOutcome) :
    collectOutcomes l = (l.filterMap outcomeSuccess, l.countP outcomeIsOk,
      l.countP (fun o => !outcomeIsOk o)) := by
  induction l with
  | nil => rfl
  | cons o rest ih =>
    cases o with
    | ok b =>
      simp [collectOutcomes, ih, outcomeSuccess, outcomeIsOk, List.countP_cons]
    | fail a b c d =>
      simp [collectOutcomes, ih, outcomeSuccess, outcomeIsOk, List.countP_cons]

/-- C3: the tail of `_process` — sorting the collected per-batch successes by
start page and merging — is independent of the completion order: any
permutation of the collected outcome list (with pairwise distinct success
start pages) yields the identical `DocumentResult`, ids, detected type and
language included. -/
theorem c3_merge_order_independent (tp tb w : Nat) (c₁ c₂ : List BatchOutcome)
    (hp : c₁.Perm c₂)
    (hd : ((collectOutcomes c₁).1.map (·.start_page)).Nodup) :
    processCollected tp tb w c₁ = processCollected tp tb w c₂ := by
  have hfm : (collectOutcomes c₁).1.Perm (collectOutcomes c₂).1 := by
    rw [collectOutcomes_eq, collectOutcomes_eq]
    exact hp.filterMap _
  have hcnt1 : (collectOutcomes c₁).2.1 = (collectOutcomes c₂).2.1 := by
    rw [collectOutcomes_eq, collectOutcomes_eq]
    exact hp.countP_eq _
  have hcnt2 : (collectOutcomes c₁).2.2 = (collectOutcomes c₂).2.2 := by
    rw [collectOutcomes_eq, collectOutcomes_eq]
    exact hp.countP_eq _
  have hempty : (collectOutcomes c₁).1.isEmpty = (collectOutcomes c₂).1.isEmpty := by
    have hlen := hfm.length_eq
    cases h₁ : (collectOutcomes c₁).1 with
    | nil =>
      cases h₂ : (collectOutcomes c₂).1 with
      | nil => rfl
      | cons x xs => rw [h₁, h₂] at hlen; exact absurd hlen (by simp)
    | cons x xs =>
      cases h₂ : (collectOutcomes c₂).1 with
      | nil => rw [h₁, h₂] at hlen; exact absurd hlen (by simp)
      | cons y ys => rfl
  have hsort : (collectOutcomes c₁).1.insertionSort leStart =
      (collectOutcomes c₂).1.insertionSort leStart :=
    insertionSort_unique _ _ hfm hd
  simp only [processCollected]
  rw [hempty, hsort, hcnt1, hcnt2]

def c3r1 : ExtractionResult :=
  { detected_type := some "報告"
    language := some "zh-TW"
    blocks := [⟨"b1", "text", some (.intv 1), "中央", "一"⟩]
    key_value_pairs := []
    tables := []
    images := []
    summary := some "s1" }

def c3r2 : ExtractionResult :=
  { detected_type := none
    language := some "en"
    blocks := [⟨"b1", "text", some (.intv 4), "中央", "二"⟩]
    key_value_pairs := []
    tables := []
    images := []
    summary := some "s2" }

def c3b1 : BatchSuccess := ⟨1, 1, 3, c3r1⟩

def c3b2 : BatchSuccess := ⟨2, 4, 6, c3r2⟩

/-- C3 witness: two successful batches collected in either completion order
merge to the identical document result. -/
theorem c3_witness :
    ([BatchOutcome.ok c3b2, BatchOutcome.ok c3b1].Perm
      [BatchOutcome.ok c3b1, BatchOutcome.ok c3b2]) ∧
    ((collectOutcomes [BatchOutcome.ok c3b2, BatchOutcome.ok c3b1]).1.map
      (·.start_page)).Nodup ∧
    processCollected 6 2 4 [BatchOutcome.ok c3b2, BatchOutcome.ok c3b1] =
      processCollected 6 2 4 [BatchOutcome.ok c3b1, BatchOutcome.ok c3b2] :=
  ⟨List.Perm.swap (BatchOutcome.ok c3b1) (BatchOutcome.ok c3b2) [],
   by decide,
   c3_merge_order_independent 6 2 4 _ _
     (List.Perm.swap (BatchOutcome.ok c3b1) (BatchOutcome.ok c3b2) [])
     (by decide)⟩

/-! ## C4 -/

/-- The extraction result a non-failing batch contributes (first attempt if
it succeeds, otherwise the retry; the final arm is unreachable for
non-failing batches). -/
def batchResultOf (oracle : BatchTask → Fin 2 → Except String ExtractionResult)
    (t : BatchTask) : ExtractionResult :=
  match oracle t 0 with
  | .ok p => process_batch t.start_page t.end_page p
  | .error _ =>
    match oracle t 1 with
    | .ok p => process_batch t.start_page t.end_page p
    | .error _ => ⟨none, none, [], [], [], [], none⟩

def successOf (oracle : BatchTask → Fin 2 → Except String ExtractionResult)
    (t : BatchTask) : BatchSuccess :=
  ⟨t.batch_num, t.start_page, t.end_page, batchResultOf oracle t⟩

lemma outcomeIsOk_retry (oracle : BatchTask → Fin 2 → Except String ExtractionResult)
    (t : BatchTask) :
    outcomeIsOk (process_batch_with_retry oracle t) = !failsTwice oracle t := by
  unfold process_batch_with_retry failsTwice outcomeIsOk
  cases h0 : oracle t 0 with
  | ok p => rfl
  | error e =>
    cases h1 : oracle t 1 with
    | ok p => rfl
    | error e2 => rfl

lemma outcomeSuccess_retry (oracle : BatchTask → Fin 2 → Except String ExtractionResult)
    (t : BatchTask) :
    outcomeSuccess (process_batch_with_retry oracle t) =
      (if failsTwice oracle t then none else some (successOf oracle t)) := by
  unfold process_batch_with_retry failsTwice outcomeSuccess successOf batchResultOf
  cases h0 : oracle t 0 with
  | ok p => rfl
  | error e =>
    cases h1 : oracle t 1 with
    | ok p => rfl
    | error e2 => rfl

lemma filterMap_retry (oracle : BatchTask → Fin 2 → Except String ExtractionResult)
    (tasks : List BatchTask) :
    (tasks.map (process_batch_with_retry oracle)).filterMap outcomeSuccess =
      (tasks.filter (fun t => !failsTwice oracle t)).map (successOf oracle) := by
  induction tasks with
  | nil => rfl
  | cons t ts ih =>
    rw [List.map_cons, List.filterMap_cons, outcomeSuccess_retry, List.filter_cons]
    cases hf : failsTwice oracle t with
    | true => simpa [hf] using ih
    | false => simpa [hf] using ih

lemma filter_not_length {α : Type} (p : α → Bool) (l : List α) :
    (l.filter (fun a => !p a)).length = l.length - (l.filter p).length := by
  induction l with
  | nil => rfl
  | cons a as ih =>
    have hle := List.length_filter_le p as
    cases hp : p a <;> (simp [List.filter_cons, hp, ih]; try omega)

/-- C4: for a multi-batch document (N pages, N > 3, so k ≥ 2 batches of size
3), with `f` the number of batches whose two attempts both raise: when
`f < k` the returned `DocumentResult` succeeds, its processing-time metadata
reports `failed_batches = f` and `successful_batches = k - f`, and every
merged block comes from a batch that did not fail; when `f = k` the result
is unsuccessful with the all-batches-failed error message. -/
theorem c4_partial_failure_semantics (N w : Nat) (hN : 3 < N)
    (oracle : BatchTask → Fin 2 → Except String ExtractionResult)
    (schedule : List BatchOutcome → List BatchOutcome)
    (hsched : ∀ l, (schedule l).Perm l) :
    (((makeBatchTasks N (get_batch_size N)).filter (failsTwice oracle)).length <
        (makeBatchTasks N (get_batch_size N)).length →
      (process_bytes (some N) oracle schedule w).success = true ∧
      (process_bytes (some N) oracle schedule w).processing_time =
        some ⟨(makeBatchTasks N (get_batch_size N)).length,
          some ((makeBatchTasks N (get_batch_size N)).length -
            ((makeBatchTasks N (get_batch_size N)).filter (failsTwice oracle)).length),
          some ((makeBatchTasks N (get_batch_size N)).filter (failsTwice oracle)).length,
          some w⟩ ∧
      (∀ b ∈ (process_bytes (some N) oracle schedule w).blocks,
        ∃ t ∈ makeBatchTasks N (get_batch_size N), failsTwice oracle t = false ∧
          ∃ b₀ ∈ (batchResultOf oracle t).blocks, b = { b₀ with id := b.id })) ∧
    (((makeBatchTasks N (get_batch_size N)).filter (failsTwice oracle)).length =
        (makeBatchTasks N (get_batch_size N)).length →
      (process_bytes (some N) oracle schedule w).success = false ∧
      (process_bytes (some N) oracle schedule w).error = some "所有批次處理都失敗") := by
  have hbs : get_batch_size N = 3 := by
    unfold get_batch_size
    rw [if_neg (by omega)]
  have hmulti : process_bytes (some N) oracle schedule w =
      processCollected N (makeBatchTasks N (get_batch_size N)).length w
        (schedule ((makeBatchTasks N (get_batch_size N)).map
          (process_batch_with_retry oracle))) := by
    unfold process_bytes
    dsimp only [get_pdf_page_count]
    rw [if_neg (by rw [hbs]; omega)]
  set T := makeBatchTasks N (get_batch_size N) with hT
  set collected := schedule (T.map (process_batch_with_retry oracle)) with hcolDef
  have hcol : collected.Perm (T.map (process_batch_with_retry oracle)) := hsched _
  have hsucc : (collectOutcomes collected).1 =
      collected.filterMap outcomeSuccess := by
    rw [collectOutcomes_eq]
  have hsuccPerm : (collectOutcomes collected).1.Perm
      ((T.filter (fun t => !failsTwice oracle t)).map (successOf oracle)) := by
    rw [hsucc, ← filterMap_retry]
    exact hcol.filterMap _
  have hcnt1 : (collectOutcomes collected).2.1 =
      T.length - (T.filter (failsTwice oracle)).length := by
    rw [collectOutcomes_eq]
    dsimp only
    rw [hcol.countP_eq, List.countP_map]
    rw [show outcomeIsOk ∘ process_batch_with_retry oracle =
        (fun t => !failsTwice oracle t) from funext fun t => outcomeIsOk_retry oracle t]
    rw [List.countP_eq_length_filter, filter_not_length]
  have hcnt2 : (collectOutcomes collected).2.2 =
      (T.filter (failsTwice oracle)).length := by
    rw [collectOutcomes_eq]
    dsimp only
    rw [hcol.countP_eq, List.countP_map]
    rw [show (fun o => !outcomeIsOk o) ∘ process_batch_with_retry oracle =
        (fun t => failsTwice oracle t) from funext fun t => by
          simp [Function.comp, outcomeIsOk_retry]]
    rw [List.countP_eq_length_filter]
  have hlen : (collectOutcomes collected).1.length =
      T.length - (T.filter (failsTwice oracle)).length := by
    rw [hsuccPerm.length_eq, List.length_map, filter_not_length]
  constructor
  · intro hf
    have hne : (collectOutcomes collected).1.isEmpty = false := by
      have : (collectOutcomes collected).1.length ≠ 0 := by
        rw [hlen]
        omega
      cases h : (collectOutcomes collected).1 with
      | nil => rw [h] at this; simp at this
      | cons x xs => rfl
    have hres : process_bytes (some N) oracle schedule w =
        { success := true
          total_pages := N
          detected_type := (merge_results
            (((collectOutcomes collected).1.insertionSort leStart).map (·.result))
            N).detected_type
          language := (merge_results
            (((collectOutcomes collected).1.insertionSort leStart).map (·.result))
            N).language
          blocks := (merge_results
            (((collectOutcomes collected).1.insertionSort leStart).map (·.result))
            N).blocks
          full_text := (merge_results
            (((collectOutcomes collected).1.insertionSort leStart).map (·.result))
            N).text_summary
          key_value_pairs := (merge_results
            (((collectOutcomes collected).1.insertionSort leStart).map (·.result))
            N).key_value_pairs
          tables := (merge_results
            (((collectOutcomes collected).1.insertionSort leStart).map (·.result))
            N).tables
          images_summary := some (merge_results
            (((collectOutcomes collected).1.insertionSort leStart).map (·.result))
            N).images_summary
          processing_time := some ⟨T.length, some (collectOutcomes collected).2.1,
            some (collectOutcomes collected).2.2, some w⟩
          error := none } := by
      rw [hmulti]
      simp only [processCollected, ← hcolDef, hne]
      rfl
    refine ⟨by rw [hres], by rw [hres, hcnt1, hcnt2], ?_⟩
    intro b hb
    rw [hres] at hb
    dsimp only at hb
    rcases mergeLoop_blocks_mem _ _ _ hb with hinit | ⟨res, hresm, b₀, hb₀, he⟩
    · exact absurd hinit (by simp [initMergeState])
    · rcases List.mem_map.mp hresm with ⟨bs, hbs2, rfl⟩
      have hbs3 : bs ∈ (collectOutcomes collected).1 := by
        have := (List.mem_insertionSort leStart).mp hbs2
        exact this
      have hbs4 : bs ∈ (T.filter (fun t => !failsTwice oracle t)).map
          (successOf oracle) := hsuccPerm.mem_iff.mp hbs3
      rcases List.mem_map.mp hbs4 with ⟨t, ht, rfl⟩
      have htT : t ∈ T := List.mem_of_mem_filter ht
      have htf : failsTwice oracle t = false := by
        have := List.of_mem_filter ht
        simpa using this
      exact ⟨t, htT, htf, b₀, hb₀, he⟩
  · intro hf
    have hemp : (collectOutcomes collected).1.isEmpty = true := by
      have : (collectOutcomes collected).1.length = 0 := by
        rw [hlen]
        omega
      cases h : (collectOutcomes collected).1 with
      | nil => rfl
      | cons x xs => rw [h] at this; simp at this
    have hres : process_bytes (some N) oracle schedule w =
        error_result "所有批次處理都失敗" := by
      rw [hmulti]
      simp only [processCollected, ← hcolDef, hemp]
      rfl
    rw [hres]
    exact ⟨rfl, rfl⟩

def c4Res : ExtractionResult :=
  { detected_type := some "報告"
    language := some "zh-TW"
    blocks := [⟨"b1", "text", some (.intv 1), "中央", "內容"⟩]
    key_value_pairs := []
    tables := []
    images := []
    summary := some "摘要" }

def c4Oracle : BatchTask → Fin 2 → Except String ExtractionResult :=
  fun t _ => if t.batch_num = 2 then .error "boom" else .ok c4Res

/-- C4 witness: a 7-page document (3 batches); the second batch fails both
attempts, the other two succeed — the result succeeds with
`successful_batches = 2` and `failed_batches = 1`. -/
theorem c4_witness :
    (3 < 7 ∧
      ((makeBatchTasks 7 (get_batch_size 7)).filter (failsTwice c4Oracle)).length = 1 ∧
      (makeBatchTasks 7 (get_batch_size 7)).length = 3) ∧
    (process_bytes (some 7) c4Oracle id 4).success = true ∧
    (process_bytes (some 7) c4Oracle id 4).processing_time =
      some ⟨3, some 2, some 1, some 4⟩ := by
  refine ⟨⟨by decide, by decide, by decide⟩, ?_, ?_⟩
  · exact ((c4_partial_failure_semantics 7 4 (by decide) c4Oracle id
      (fun l => List.Perm.refl l)).1 (by decide)).1
  · have h := ((c4_partial_failure_semantics 7 4 (by decide) c4Oracle id
      (fun l => List.Perm.refl l)).1 (by decide)).2.1
    rw [h]
    decide


/-! ## C6 -/

/-- The three-page window a hit contributes: `range(page, page + 3)`. -/
def tri (h : HitBlock) : List Nat := [h.page, h.page + 1, h.page + 2]

/-- All window pages accumulated for document `d`, in hit order. -/
def hitPagesTri (hits : List HitBlock) (d : String) : List Nat :=
  (hits.filter (fun h => h.document_id = d)).flatMap tri

/-- The pages of the hits on document `d`. -/
def hitPages (hits : List HitBlock) (d : String) : List Nat :=
  (hits.filter (fun h => h.document_id = d)).map (fun h => h.page)

def rangesLookup (m : List (String × List Nat)) (d : String) : Option (List Nat) :=
  match m with
  | [] => none
  | e :: rest => if e.1 = d then some e.2 else rangesLookup rest d

def optExtend (o : Option (List Nat)) (l : List Nat) : Option (List Nat) :=
  match o with
  | some ps => some (ps ++ l)
  | none => if l.isEmpty then none else some l


lemma addPages_lookup (m : List (String × List Nat)) (d : String) (ps : List Nat)
    (d' : String) :
    rangesLookup (addPages m d ps) d' =
      if d' = d then some ((rangesLookup m d).getD [] ++ ps)
      else rangesLookup m d' := by
  induction m with
  | nil =>
    unfold addPages rangesLookup
    by_cases h : d' = d
    · subst h
      simp
    · rw [if_neg (fun hc : d = d' => h hc.symm), if_neg h]
      rfl
  | cons e rest ih =>
    unfold addPages
    by_cases he : e.1 = d
    · rw [if_pos he]
      unfold rangesLookup
      by_cases h : d' = d
      · subst h
        rw [if_pos he, if_pos rfl, if_pos he]
        rfl
      · have hne : ¬(e.1 = d') := fun hc => h (he ▸ hc ▸ rfl)
        rw [if_neg hne, if_neg h, if_neg hne]
    · rw [if_neg he]
      unfold rangesLookup
      by_cases hed : e.1 = d'
      · have h : ¬(d' = d) := fun hc => he (hc ▸ hed)
        rw [if_pos hed, if_neg h, if_pos hed]
      · rw [if_neg hed, ih, if_neg he]
        by_cases h : d' = d
        · rw [if_pos h, if_pos h]
        · rw [if_neg h, if_neg h, if_neg hed]

lemma foldl_addPages_lookup (hits : List HitBlock) :
    ∀ (m : List (String × List Nat)) (d : String),
      rangesLookup (hits.foldl (fun m h => addPages m h.document_id (tri h)) m) d =
        optExtend (rangesLookup m d) (hitPagesTri hits d) := by
  induction hits with
  | nil =>
    intro m d
    unfold hitPagesTri
    simp only [List.foldl_nil, List.filter_nil, List.flatMap_nil]
    cases h : rangesLookup m d <;> simp [optExtend]
  | cons h hs ih =>
    intro m d
    rw [List.foldl_cons, ih, addPages_lookup]
    unfold hitPagesTri
    rw [List.filter_cons]
    by_cases hd : h.document_id = d
    · subst hd
      rw [if_pos rfl]
      simp only [decide_True, if_pos]
      rw [List.flatMap_cons]
      cases hm : rangesLookup m h.document_id with
      | some ps =>
        simp [optExtend, hitPagesTri, hm, List.append_assoc]
      | none =>
        simp [optExtend, hitPagesTri, hm, tri]
    · rw [if_neg (fun hc : d = h.document_id => hd hc.symm)]
      have : (decide (h.document_id = d)) = false := by simpa using hd
      rw [this]
      simp only [Bool.false_eq_true, if_neg]
      rfl

lemma addPages_keys (m : List (String × List Nat)) (d : String) (ps : List Nat) :
    (addPages m d ps).map Prod.fst =
      if d ∈ m.map Prod.fst then m.map Prod.fst else m.map Prod.fst ++ [d] := by
  induction m with
  | nil => simp [addPages]
  | cons e rest ih =>
    unfold addPages
    by_cases he : e.1 = d
    · rw [if_pos he]
      simp only [List.map_cons]
      rw [if_pos (by rw [he]; exact List.mem_cons_self _ _)]
    · rw [if_neg he]
      simp only [List.map_cons, ih]
      by_cases hd : d ∈ rest.map Prod.fst
      · rw [if_pos hd, if_pos (List.mem_cons_of_mem _ hd)]
      · rw [if_neg hd, if_neg (by
          intro hc
          rcases List.mem_cons.mp hc with hc | hc
          · exact he hc.symm
          · exact hd hc)]
        rfl

lemma foldl_addPages_keys_nodup (hits : List HitBlock) :
    ∀ (m : List (String × List Nat)), (m.map Prod.fst).Nodup →
      ((hits.foldl (fun m h => addPages m h.document_id (tri h)) m).map Prod.fst).Nodup := by
  induction hits with
  | nil => intro m hm; exact hm
  | cons h hs ih =>
    intro m hm
    rw [List.foldl_cons]
    apply ih
    rw [addPages_keys]
    by_cases hd : h.document_id ∈ m.map Prod.fst
    · rw [if_pos hd]; exact hm
    · rw [if_neg hd]
      simp [List.nodup_append, hm, hd]

lemma lookup_of_mem (m : List (String × List Nat)) (hm : (m.map Prod.fst).Nodup)
    (d : String) (ps : List Nat) (h : (d, ps) ∈ m) :
    rangesLookup m d = some ps := by
  induction m with
  | nil => exact absurd h (by simp)
  | cons e rest ih =>
    rcases List.mem_cons.mp h with rfl | h2
    · unfold rangesLookup
      rw [if_pos rfl]
    · unfold rangesLookup
      have hnd := hm
      simp only [List.map_cons, List.nodup_cons] at hnd
      have hne : ¬(e.1 = d) := by
        intro hc
        exact hnd.1 (hc ▸ (List.mem_map.mpr ⟨(d, ps), h2, rfl⟩))
      rw [if_neg hne]
      exact ih hnd.2 h2

lemma mem_of_lookup (m : List (String × List Nat)) (d : String) (ps : List Nat)
    (h : rangesLookup m d = some ps) : (d, ps) ∈ m := by
  induction m with
  | nil => exact absurd h (by simp [rangesLookup])
  | cons e rest ih =>
    unfold rangesLookup at h
    by_cases he : e.1 = d
    · rw [if_pos he] at h
      have : e = (d, ps) := by
        rcases e with ⟨e1, e2⟩
        simp at he h
        exact Prod.ext he h
      exact this ▸ List.mem_cons_self e rest
    · rw [if_neg he] at h
      exact List.mem_cons_of_mem e (ih h)

lemma foldl_min_min (xs : List Nat) :
    ∀ a b, xs.foldl min (min a b) = min a (xs.foldl min b) := by
  induction xs with
  | nil => intro a b; rfl
  | cons x xs ih =>
    intro a b
    rw [List.foldl_cons, List.foldl_cons, min_assoc, ih]

lemma foldl_max_max (xs : List Nat) :
    ∀ a b, xs.foldl max (max a b) = max a (xs.foldl max b) := by
  induction xs with
  | nil => intro a b; rfl
  | cons x xs ih =>
    intro a b
    rw [List.foldl_cons, List.foldl_cons, max_assoc, ih]

lemma foldl_min_eq (p : Nat) (l : List Nat) (hl : l ≠ []) :
    l.foldl min p = min p (minL l) := by
  cases l with
  | nil => exact absurd rfl hl
  | cons x xs => rw [List.foldl_cons, foldl_min_min, minL]

lemma foldl_max_eq (p : Nat) (l : List Nat) (hl : l ≠ []) :
    l.foldl max p = max p (maxL l) := by
  cases l with
  | nil => exact absurd rfl hl
  | cons x xs => rw [List.foldl_cons, foldl_max_max, maxL]

lemma minL_tri_flat (l : List HitBlock) (hl : l ≠ []) :
    minL (l.flatMap tri) = minL (l.map (fun h => h.page)) ∧
    maxL (l.flatMap tri) = maxL (l.map (fun h => h.page)) + 2 := by
  induction l with
  | nil => exact absurd rfl hl
  | cons h t ih =>
    have htri : minL (tri h) = h.page ∧ maxL (tri h) = h.page + 2 := by
      constructor
      · show min (min h.page (h.page + 1)) (h.page + 2) = h.page
        omega
      · show max (max h.page (h.page + 1)) (h.page + 2) = h.page + 2
        omega
    cases t with
    | nil =>
      simp only [List.flatMap_cons, List.flatMap_nil, List.append_nil,
        List.map_cons, List.map_nil]
      exact ⟨htri.1, htri.2⟩
    | cons h2 t2 =>
      have hne : (h2 :: t2).flatMap tri ≠ [] := by
        simp [List.flatMap_cons, tri]
      have hmapne : (h2 :: t2).map (fun h => h.page) ≠ [] := by simp
      rcases ih (by simp) with ⟨ihmin, ihmax⟩
      constructor
      · show minL (tri h ++ (h2 :: t2).flatMap tri) = _
        rcases hx : (h2 :: t2).flatMap tri with _ | ⟨y, ys⟩
        · exact absurd hx hne
        · show minL (h.page :: (h.page + 1) :: (h.page + 2) :: y :: ys) = _
          show ((h.page + 1) :: (h.page + 2) :: y :: ys).foldl min h.page = _
          rw [List.foldl_cons, List.foldl_cons]
          have e1 : min (min h.page (h.page + 1)) (h.page + 2) = h.page := by
            omega
          rw [e1, foldl_min_eq h.page (y :: ys) (by simp)]
          have : minL (y :: ys) = minL ((h2 :: t2).flatMap tri) := by rw [hx]
          rw [this, ihmin]
          show min h.page (minL ((h2 :: t2).map (fun h => h.page))) =
            minL (h.page :: (h2 :: t2).map (fun h => h.page))
          show _ = ((h2 :: t2).map (fun h => h.page)).foldl min h.page
          rw [foldl_min_eq h.page _ hmapne]
      · show maxL (tri h ++ (h2 :: t2).flatMap tri) = _
        rcases hx : (h2 :: t2).flatMap tri with _ | ⟨y, ys⟩
        · exact absurd hx hne
        · show maxL (h.page :: (h.page + 1) :: (h.page + 2) :: y :: ys) = _
          show ((h.page + 1) :: (h.page + 2) :: y :: ys).foldl max h.page = _
          rw [List.foldl_cons, List.foldl_cons]
          have e1 : max (max h.page (h.page + 1)) (h.page + 2) = h.page + 2 := by
            omega
          rw [e1, foldl_max_eq (h.page + 2) (y :: ys) (by simp)]
          have : maxL (y :: ys) = maxL ((h2 :: t2).flatMap tri) := by rw [hx]
          rw [this, ihmax]
          show max (h.page + 2) (maxL ((h2 :: t2).map (fun h => h.page)) + 2) =
            maxL (h.page :: (h2 :: t2).map (fun h => h.page)) + 2
          show _ = ((h2 :: t2).map (fun h => h.page)).foldl max h.page + 2
          rw [foldl_max_eq h.page _ hmapne]
          omega

lemma docPageRanges_eq_tri (hits : List HitBlock) :
    docPageRanges hits =
      hits.foldl (fun m h => addPages m h.document_id (tri h)) [] := rfl

lemma mem_dedupById (l : List BlockRec)
    (hinj : ∀ x ∈ l, ∀ y ∈ l, x.id = y.id → x = y) :
    ∀ (seen : List Nat) (b : BlockRec),
      b ∈ dedupById seen l ↔ (b ∈ l ∧ b.id ∉ seen) := by
  induction l with
  | nil =>
    intro seen b
    simp [dedupById]
  | cons x rest ih =>
    intro seen b
    have hinj' : ∀ a ∈ rest, ∀ y ∈ rest, a.id = y.id → a = y :=
      fun a ha y hy => hinj a (List.mem_cons_of_mem _ ha) y (List.mem_cons_of_mem _ hy)
    unfold dedupById
    by_cases hc : seen.contains x.id
    · rw [if_pos hc, ih hinj' seen b]
      have hxid : x.id ∈ seen := by simpa using hc
      constructor
      · rintro ⟨hb, hs⟩
        exact ⟨List.mem_cons_of_mem _ hb, hs⟩
      · rintro ⟨hb, hs⟩
        rcases List.mem_cons.mp hb with rfl | hb2
        · exact absurd hxid hs
        · exact ⟨hb2, hs⟩
    · rw [if_neg hc]
      have hxid : x.id ∉ seen := by simpa using hc
      rw [List.mem_cons, ih hinj' (x.id :: seen) b]
      constructor
      · rintro (rfl | ⟨hb, hs⟩)
        · exact ⟨List.mem_cons_self _ _, hxid⟩
        · refine ⟨List.mem_cons_of_mem _ hb, ?_⟩
          intro hmem
          exact hs (List.mem_cons_of_mem _ hmem)
      · rintro ⟨hb, hs⟩
        rcases List.mem_cons.mp hb with rfl | hb2
        · exact Or.inl rfl
        · by_cases hid : b.id = x.id
          · exact Or.inl (hinj b (List.mem_cons_of_mem _ hb2) x
              (List.mem_cons_self _ _) hid)
          · refine Or.inr ⟨hb2, ?_⟩
            intro hmem
            rcases List.mem_cons.mp hmem with h1 | h2
            · exact hid h1
            · exact hs h2

lemma mem_get_blocks (table : List BlockRec) (d : String) (lo hi : Nat)
    (b : BlockRec) :
    b ∈ get_blocks_by_page_range true table d lo hi ↔
      (b ∈ table ∧ b.document_id = d ∧ lo ≤ b.page ∧ b.page ≤ hi) := by
  unfold get_blocks_by_page_range
  simp [List.mem_filter, and_assoc]

/-- C6 amended: the expanded block set used for context assembly equals, for
each document with at least one hit, all stored blocks of that document whose
page lies in the single interval from the least hit page to the greatest hit
page plus two (so pages strictly between two distant windows of the same
document are included too), deduplicated by id. -/
theorem c6_amended_expansion (table : List BlockRec) (hits : List HitBlock)
    (hinj : ∀ x ∈ table, ∀ y ∈ table, x.id = y.id → x = y) (b : BlockRec) :
    b ∈ expandedVector true table hits ↔
      (b ∈ table ∧ hitPages hits b.document_id ≠ [] ∧
       minL (hitPages hits b.document_id) ≤ b.page ∧
       b.page ≤ maxL (hitPages hits b.document_id) + 2) := by
  have hLsub : ∀ x ∈ (docPageRanges hits).flatMap (fun e =>
      get_blocks_by_page_range true table e.1 (minL e.2) (maxL e.2)), x ∈ table := by
    intro x hx
    rcases List.mem_flatMap.mp hx with ⟨e, he, hxe⟩
    exact ((mem_get_blocks table e.1 _ _ x).mp hxe).1
  have hinjL := fun x hx y hy => hinj x (hLsub x hx) y (hLsub y hy)
  have hdedup : b ∈ expandedVector true table hits ↔
      b ∈ (docPageRanges hits).flatMap (fun e =>
        get_blocks_by_page_range true table e.1 (minL e.2) (maxL e.2)) := by
    unfold expandedVector
    rw [mem_dedupById _ hinjL [] b]
    simp
  have hkeys : ((docPageRanges hits).map Prod.fst).Nodup := by
    rw [docPageRanges_eq_tri]
    exact foldl_addPages_keys_nodup hits [] (by simp)
  have hlook : ∀ d, rangesLookup (docPageRanges hits) d =
      optExtend none (hitPagesTri hits d) := by
    intro d
    rw [docPageRanges_eq_tri]
    exact foldl_addPages_lookup hits [] d
  have hfilter_iff : ∀ d, (hits.filter (fun h => h.document_id = d) ≠ []) ↔
      hitPages hits d ≠ [] := by
    intro d
    unfold hitPages
    constructor
    · intro h1 hc
      exact h1 (List.map_eq_nil_iff.mp hc)
    · intro h1 hc
      apply h1
      rw [hc]
      rfl
  have htri_ne : ∀ d, hits.filter (fun h => h.document_id = d) ≠ [] →
      hitPagesTri hits d ≠ [] := by
    intro d hne
    unfold hitPagesTri
    cases hx : hits.filter (fun h => h.document_id = d) with
    | nil => exact absurd hx hne
    | cons y ys => simp [List.flatMap_cons, tri]
  rw [hdedup, List.mem_flatMap]
  constructor
  · rintro ⟨⟨d, ps⟩, he, hbe⟩
    have hb2 := (mem_get_blocks table d _ _ b).mp hbe
    have hlookup : rangesLookup (docPageRanges hits) d = some ps :=
      lookup_of_mem _ hkeys d ps he
    rw [hlook d] at hlookup
    have hps : hitPagesTri hits d ≠ [] ∧ ps = hitPagesTri hits d := by
      unfold optExtend at hlookup
      by_cases hE : (hitPagesTri hits d).isEmpty
      · rw [if_pos hE] at hlookup
        exact absurd hlookup (by simp)
      · rw [if_neg hE] at hlookup
        refine ⟨by simpa [List.isEmpty_iff] using hE, ?_⟩
        exact (Option.some.injEq _ _ ▸ hlookup).symm
    have hfne : hits.filter (fun h => h.document_id = d) ≠ [] := by
      intro hc
      apply hps.1
      unfold hitPagesTri
      rw [hc]
      rfl
    have hmm := minL_tri_flat (hits.filter (fun h => h.document_id = d)) hfne
    have hdoc : b.document_id = d := hb2.2.1
    rw [hdoc]
    refine ⟨hb2.1, (hfilter_iff d).mp hfne, ?_, ?_⟩
    · have := hb2.2.2.1
      rw [hps.2] at this
      unfold hitPagesTri at this
      rw [hmm.1] at this
      exact this
    · have := hb2.2.2.2
      rw [hps.2] at this
      unfold hitPagesTri at this
      rw [hmm.2] at this
      unfold hitPages
      omega
  · rintro ⟨hbt, hne, hmin, hmax⟩
    have hfne : hits.filter (fun h => h.document_id = b.document_id) ≠ [] :=
      (hfilter_iff b.document_id).mpr hne
    have htrine := htri_ne b.document_id hfne
    have hlookup : rangesLookup (docPageRanges hits) b.document_id =
        some (hitPagesTri hits b.document_id) := by
      rw [hlook b.document_id]
      unfold optExtend
      rw [if_neg (by simpa [List.isEmpty_iff] using htrine)]
    have hmem : (b.document_id, hitPagesTri hits b.document_id) ∈ docPageRanges hits :=
      mem_of_lookup _ _ _ hlookup
    refine ⟨(b.document_id, hitPagesTri hits b.document_id), hmem, ?_⟩
    rw [mem_get_blocks]
    have hmm := minL_tri_flat (hits.filter (fun h => h.document_id = b.document_id)) hfne
    refine ⟨hbt, rfl, ?_, ?_⟩
    · show minL (hitPagesTri hits b.document_id) ≤ b.page
      unfold hitPagesTri
      rw [hmm.1]
      exact hmin
    · show b.page ≤ maxL (hitPagesTri hits b.document_id)
      unfold hitPagesTri
      rw [hmm.2]
      unfold hitPages at hmax
      omega

/-- Modelled from the claim's words (comparison definition, not from the
source): a block belongs to the claimed expansion iff it is stored and lies
in some hit's own three-page window {p, p+1, p+2} on the same document. -/
def specWindowMember (hits : List HitBlock) (table : List BlockRec)
    (b : BlockRec) : Prop :=
  b ∈ table ∧ ∃ h ∈ hits, h.document_id = b.document_id ∧
    h.page ≤ b.page ∧ b.page ≤ h.page + 2

def c6Table : List BlockRec :=
  [⟨1, "d", "text", 1, "中央", "內容一", "f.pdf"⟩,
   ⟨2, "d", "text", 2, "中央", "內容二", "f.pdf"⟩,
   ⟨3, "d", "text", 3, "中央", "內容三", "f.pdf"⟩,
   ⟨4, "d", "text", 4, "中央", "內容四", "f.pdf"⟩,
   ⟨5, "d", "text", 5, "中央", "內容五", "f.pdf"⟩,
   ⟨6, "d", "text", 6, "中央", "內容六", "f.pdf"⟩,
   ⟨7, "d", "text", 7, "中央", "內容七", "f.pdf"⟩,
   ⟨8, "d", "text", 8, "中央", "內容八", "f.pdf"⟩,
   ⟨9, "d", "text", 9, "中央", "內容九", "f.pdf"⟩,
   ⟨10, "d", "text", 10, "中央", "內容十", "f.pdf"⟩,
   ⟨11, "d", "text", 11, "中央", "內容十一", "f.pdf"⟩,
   ⟨12, "d", "text", 12, "中央", "內容十二", "f.pdf"⟩]

def c6Hits : List HitBlock :=
  [⟨101, "d", "text", 1, "中央", "內容一", "f.pdf", 0, 0⟩,
   ⟨110, "d", "text", 10, "中央", "內容十", "f.pdf", 0, 0⟩]

def c6Block5 : BlockRec := ⟨5, "d", "text", 5, "中央", "內容五", "f.pdf"⟩

/-- C6 counterexample: with hits on pages 1 and 10 of the same document, the
claimed union of windows is pages {1,2,3} ∪ {10,11,12}, but the code takes
the min-max interval per document and also returns the block on page 5. -/
theorem c6_counterexample :
    c6Block5 ∈ expandedVector true c6Table c6Hits ∧
    ¬ specWindowMember c6Hits c6Table c6Block5 := by
  constructor
  · decide
  · unfold specWindowMember
    decide

/-- C6 amended witness on the concrete table and hits: the block on page 5
is expanded exactly because it lies in the per-document min/max+2 interval. -/
theorem c6_amended_witness :
    (∀ x ∈ c6Table, ∀ y ∈ c6Table, x.id = y.id → x = y) ∧
    (c6Block5 ∈ expandedVector true c6Table c6Hits ↔
      (c6Block5 ∈ c6Table ∧ hitPages c6Hits c6Block5.document_id ≠ [] ∧
       minL (hitPages c6Hits c6Block5.document_id) ≤ c6Block5.page ∧
       c6Block5.page ≤ maxL (hitPages c6Hits c6Block5.document_id) + 2)) :=
  ⟨by decide, c6_amended_expansion c6Table c6Hits (by decide) c6Block5⟩
